import Mathlib

set_option maxRecDepth 40000

/-!
Verification development for the unit-conversion engine in
`src/app/index.tsx` (component `UnitConverter`).

Modelling conventions:
* JavaScript `number` is modelled by `JNum`: an exact rational together with
  the IEEE special values `inf`, `neginf`, `nan`.  Arithmetic on finite
  values is exact rational arithmetic; a result whose magnitude reaches
  `2 ^ 1024` overflows to a signed infinity, mirroring double overflow.
  Double rounding of in-range results and negative zero are not modelled.
* Strings are Lean `String`s; the JS operations used by the source
  (`trim`, `parseFloat`, `toFixed(8)`, `replace(/\.?0+$/, '')`,
  `split('.')`, `toLocaleString('en-US')`, `join('.')`) are modelled by
  explicit functions below, each annotated with the source line it embeds.
* React state is a record `ConvState`; `convert` and `swapConversion`
  become state-to-state functions.  `Date.now()` is an external input and
  is passed to `convert` as the argument `now`.
-/

/-- Double overflow threshold: finite doubles have magnitude below
`2 ^ 1024`; spelled as the explicit numeral so that kernel evaluation of
the model stays cheap. -/
def OVF : ℚ := 179769313486231590772930519078902473361797697894230657273430081157732675805500963132708477322407536021120113879871393357658789768814416622492847430639474124377767893424865485276302219601246094119453082952085005768838150682342462881473913110540827237163350510684586298239947245938479716304835356329624224137216

lemma OVF_eq : OVF = 2 ^ 1024 := by norm_num [OVF]

/-- Model of a JavaScript `number`: exact rational, infinities, or NaN. -/
inductive JNum where
  | fin (q : ℚ)
  | inf
  | neginf
  | nan
deriving DecidableEq, Repr

/-- Clamp an exact rational into `JNum`, overflowing to a signed infinity at
the double overflow threshold. -/
def chk (q : ℚ) : JNum :=
  if |q| < OVF then .fin q else if q > 0 then .inf else .neginf

/-- IEEE-style addition on the number model (finite arithmetic exact). -/
def jadd : JNum → JNum → JNum
  | .nan, _ => .nan
  | _, .nan => .nan
  | .inf, .neginf => .nan
  | .neginf, .inf => .nan
  | .inf, _ => .inf
  | _, .inf => .inf
  | .neginf, _ => .neginf
  | _, .neginf => .neginf
  | .fin a, .fin b => chk (a + b)

/-- IEEE-style subtraction on the number model. -/
def jsub : JNum → JNum → JNum
  | .nan, _ => .nan
  | _, .nan => .nan
  | .inf, .inf => .nan
  | .neginf, .neginf => .nan
  | .inf, _ => .inf
  | _, .inf => .neginf
  | .neginf, _ => .neginf
  | _, .neginf => .inf
  | .fin a, .fin b => chk (a - b)

/-- IEEE-style multiplication on the number model. -/
def jmul : JNum → JNum → JNum
  | .nan, _ => .nan
  | _, .nan => .nan
  | .inf, .inf => .inf
  | .inf, .neginf => .neginf
  | .neginf, .inf => .neginf
  | .neginf, .neginf => .inf
  | .inf, .fin b => if b = 0 then .nan else if b > 0 then .inf else .neginf
  | .fin a, .inf => if a = 0 then .nan else if a > 0 then .inf else .neginf
  | .neginf, .fin b => if b = 0 then .nan else if b > 0 then .neginf else .inf
  | .fin a, .neginf => if a = 0 then .nan else if a > 0 then .neginf else .inf
  | .fin a, .fin b => chk (a * b)

/-- IEEE-style division on the number model (sign of zero not modelled:
division by zero with a positive dividend yields `inf`). -/
def jdiv : JNum → JNum → JNum
  | .nan, _ => .nan
  | _, .nan => .nan
  | .inf, .inf => .nan
  | .inf, .neginf => .nan
  | .neginf, .inf => .nan
  | .neginf, .neginf => .nan
  | .inf, .fin b => if b ≥ 0 then .inf else .neginf
  | .neginf, .fin b => if b ≥ 0 then .neginf else .inf
  | .fin _, .inf => .fin 0
  | .fin _, .neginf => .fin 0
  | .fin a, .fin b =>
      if b = 0 then (if a = 0 then .nan else if a > 0 then .inf else .neginf)
      else chk (a / b)

/-- A number is finite exactly when it is a rational value. -/
def JNum.isFinite : JNum → Bool
  | .fin _ => true
  | _ => false

/-! ### Model of the JS string primitives used by the engine -/

/-- Whitespace for the purposes of `trim` / `parseFloat` (ASCII subset;
the claims only constrain trimmed text, so the exact Unicode set is moot). -/
def wsChar (c : Char) : Bool :=
  c = ' ' ∨ c = '\t' ∨ c = '\n' ∨ c = '\r'

/-- Model of `String.prototype.trim` (line 209 `inputValue.trim()`). -/
def jsTrim (s : String) : String :=
  ⟨((s.data.dropWhile wsChar).reverse.dropWhile wsChar).reverse⟩

/-- ASCII decimal digit test. -/
def jsDigit (c : Char) : Bool := '0' ≤ c && c ≤ '9'

/-- Numeric value of a digit character. -/
def digVal (c : Char) : ℕ := c.toNat - '0'.toNat

/-- Value of a most-significant-first digit string. -/
def digitsVal (l : List Char) : ℕ := l.foldl (fun a c => 10 * a + digVal c) 0

/-- Exponent part of the `parseFloat` grammar: `e`/`E`, optional sign,
digits; an exponent marker not followed by digits is not consumed. -/
def parseExpPart (l : List Char) : ℤ :=
  match l with
  | c :: t =>
      if c = 'e' ∨ c = 'E' then
        match t with
        | '+' :: t2 =>
            if (t2.takeWhile jsDigit).isEmpty then 0
            else (digitsVal (t2.takeWhile jsDigit) : ℤ)
        | '-' :: t2 =>
            if (t2.takeWhile jsDigit).isEmpty then 0
            else -(digitsVal (t2.takeWhile jsDigit) : ℤ)
        | _ =>
            if (t.takeWhile jsDigit).isEmpty then 0
            else (digitsVal (t.takeWhile jsDigit) : ℤ)
      else 0
  | [] => 0

/-- Integer power of ten over the rationals, via kernel-accelerated
natural-number exponentiation. -/
def pow10 (e : ℤ) : ℚ :=
  match e with
  | .ofNat n => ((10 ^ n : ℕ) : ℚ)
  | .negSucc n => 1 / ((10 ^ (n + 1) : ℕ) : ℚ)

/-- Decimal-literal part of `parseFloat` after the optional sign:
digits, optional fraction, optional exponent, longest valid prefix.
Returns `none` when no digit is present at all. -/
def parseAfterSign (l : List Char) : Option ℚ :=
  let ds := l.takeWhile jsDigit
  let r1 := l.dropWhile jsDigit
  let fr := match r1 with
    | '.' :: t => (t.takeWhile jsDigit, t.dropWhile jsDigit)
    | _ => (([] : List Char), r1)
  if ds.isEmpty && fr.1.isEmpty then none
  else
    let mant : ℚ := (digitsVal ds : ℚ) + (digitsVal fr.1 : ℚ) / 10 ^ fr.1.length
    some (mant * pow10 (parseExpPart fr.2))

/-- Model of `parseFloat` (lines 173, 215, 264, 307): leading whitespace
skipped, optional sign, `Infinity` keyword or decimal literal; unparsable
text yields NaN; a literal at or beyond the double range yields infinity. -/
def parseJS (s : String) : JNum :=
  let l := s.data.dropWhile wsChar
  let neg : Bool := l.head? = some '-'
  let l2 := if l.head? = some '-' ∨ l.head? = some '+' then l.tail else l
  if l2.take 8 = "Infinity".data then (if neg then .neginf else .inf)
  else
    match parseAfterSign l2 with
    | none => .nan
    | some q => chk (if neg then -q else q)

/-! ### Decimal rendering (`toString`, `toFixed(8)`, zero stripping,
thousands grouping) -/

/-- Fuelled digit rendering of a natural number, most significant first. -/
def natDigitsAux : ℕ → ℕ → List Char
  | 0, _ => []
  | fuel + 1, n => if n = 0 then [] else natDigitsAux fuel (n / 10) ++ [Nat.digitChar (n % 10)]

/-- Decimal digits of a natural number (plain list, no leading zeros). -/
def natDigits (n : ℕ) : List Char :=
  if n = 0 then ['0'] else natDigitsAux n n

/-- Fixed-width (zero-padded) decimal rendering of `n % 10 ^ w`. -/
def natDigitsPad : ℕ → ℕ → List Char
  | 0, _ => []
  | w + 1, n => natDigitsPad w (n / 10) ++ [Nat.digitChar (n % 10)]

/-- Character list of a signed integer in decimal. -/
def intChars (n : ℤ) : List Char :=
  (if n < 0 then ['-'] else []) ++ natDigits n.natAbs

/-- Model of `Number.prototype.toString` for the values that reach it in
`convert` (line 254): integral rationals render as plain decimal (the
exponent form for magnitudes at or above `10 ^ 21` is not modelled; the
claims stay far below), and the special values render as their JS names. -/
def jToString : JNum → String
  | .fin q => ⟨intChars q.num⟩
  | .inf => "Infinity"
  | .neginf => "-Infinity"
  | .nan => "NaN"

/-- Model of `toFixed(8)` (line 256) on a finite value: sign, integer part,
dot, exactly eight fraction digits, rounding half away from zero upward in
magnitude (ECMA: pick the larger candidate on ties, applied to `|q|`). -/
def toFixed8 (q : ℚ) : String :=
  ⟨(if q < 0 then ['-'] else []) ++
    natDigits ((⌊|q| * 10 ^ 8 + 1 / 2⌋).toNat / 10 ^ 8) ++
    '.' :: natDigitsPad 8 ((⌊|q| * 10 ^ 8 + 1 / 2⌋).toNat % 10 ^ 8)⟩

/-- Model of `toFixed(8)` on the full number model: special values render
as their JS names (and are left untouched by the zero stripper). -/
def jToFixed8 : JNum → String
  | .fin q => toFixed8 q
  | .inf => "Infinity"
  | .neginf => "-Infinity"
  | .nan => "NaN"

/-- Model of `.replace(/\.?0+$/, '')` (line 256) as it acts on `toFixed`
output: strip the trailing zeros, and the dot too when every fraction digit
was a zero (the leftmost-match regex cannot cross the dot, so integer-part
zeros are never stripped). -/
def stripFixed (s : String) : String :=
  ⟨(if (s.data.reverse.dropWhile (· = '0')).head? = some '.'
    then (s.data.reverse.dropWhile (· = '0')).tail
    else s.data.reverse.dropWhile (· = '0')).reverse⟩

/-- Model of `String.prototype.split('.')` (line 262) on character lists. -/
def splitDot : List Char → List (List Char)
  | [] => [[]]
  | c :: t =>
      match splitDot t with
      | [] => [[c]]
      | h :: r => if c = '.' then [] :: h :: r else (c :: h) :: r

/-- Fuelled comma grouping of a reversed digit list (three at a time). -/
def commaRevAux : ℕ → List Char → List Char
  | 0, l => l
  | fuel + 1, l =>
      if l.length ≤ 3 then l else l.take 3 ++ ',' :: commaRevAux fuel (l.drop 3)

/-- Model of `Number.prototype.toLocaleString('en-US')` for an integer:
decimal digits grouped in threes by commas. -/
def intLocale (n : ℤ) : String :=
  ⟨(if n < 0 then ['-'] else []) ++ (commaRevAux (natDigits n.natAbs).length (natDigits n.natAbs).reverse).reverse⟩

/-- Model of `toLocaleString('en-US')` (line 264) on the number model.
In `convert` it is only ever applied to the integer part of a freshly
formatted string, so only integral rationals and `Infinity` are reachable;
the unreachable non-integral branch falls back to the raw rational text. -/
def jLocale : JNum → String
  | .fin q => if q.den = 1 then intLocale q.num else toString q
  | .inf => "∞"
  | .neginf => "-∞"
  | .nan => "NaN"

/-- Thousands-grouping step (lines 260-269): split on the dot, strip commas
from the integer part, re-parse it, group it per `toLocaleString('en-US')`,
and re-join with dots.  The `try`/`catch` fallback of the source never
fires in the model. -/
def groupStep (s : String) : String :=
  match splitDot s.data with
  | [] => s
  | a :: rest =>
      ⟨List.intercalate ['.'] ((jLocale (parseJS ⟨a.filter (· ≠ ',')⟩)).data :: rest)⟩

/-- Whether `converted % 1 !== 0` holds (line 255): true for non-integral
finite values and for every special value (`Infinity % 1` and `NaN % 1`
are NaN, and `NaN !== 0`). -/
def jFracNonzero : JNum → Bool
  | .fin q => q.den ≠ 1
  | _ => true

/-- Whether `Math.abs(converted) >= 1000` holds (line 260): true for the
infinities, false for NaN. -/
def jAbs1000 : JNum → Bool
  | .fin q => 1000 ≤ |q|
  | .inf => true
  | .neginf => true
  | .nan => false

/-- The formatting pipeline of `convert` (lines 253-269): `toString` for
integral values, otherwise `toFixed(8)` with trailing zeros stripped; then
thousands grouping when the magnitude is at least 1000. -/
def formatJ (v : JNum) : String :=
  let formatted := if jFracNonzero v then stripFixed (jToFixed8 v) else jToString v
  if jAbs1000 v then groupStep formatted else formatted

/-! ### The unit catalog (lines 11-133) -/

/-- A conversion rule: linear with a factor, or non-linear with a formula
(the source's union-by-optional-field `ConversionUnit`).  The factor is a
`JNum` because the synthesized custom rule can carry an infinite factor
(`parseFloat` of an overflowing literal). -/
inductive ConversionUnit where
  | linear (fromU toU : String) (factor : JNum)
  | nonlinear (fromU toU : String) (formula : JNum → JNum)

/-- Whether a rule is non-linear (carries a formula). -/
def ConversionUnit.isNonLinear : ConversionUnit → Bool
  | .linear _ _ _ => false
  | .nonlinear _ _ _ => true

/-- Source unit display name of a rule. -/
def ConversionUnit.fromName : ConversionUnit → String
  | .linear f _ _ => f
  | .nonlinear f _ _ => f

/-- Target unit display name of a rule. -/
def ConversionUnit.toName : ConversionUnit → String
  | .linear _ t _ => t
  | .nonlinear _ t _ => t

/-- A conversion category (line 28): id, icon name, label, ordered rules. -/
structure ConversionCategory where
  id : String
  icon : String
  label : String
  conversions : List ConversionUnit

/-- Temperature formula `(c * 9 / 5) + 32` (line 79). -/
def celsiusToFahrenheit (c : JNum) : JNum := jadd (jdiv (jmul c (.fin 9)) (.fin 5)) (.fin 32)

/-- Temperature formula `(f - 32) * 5 / 9` (line 81). -/
def fahrenheitToCelsius (f : JNum) : JNum := jdiv (jmul (jsub f (.fin 32)) (.fin 5)) (.fin 9)

/-- Temperature formula `c + 273.15` (line 83). -/
def celsiusToKelvin (c : JNum) : JNum := jadd c (.fin 273.15)

/-- Temperature formula `k - 273.15` (line 85). -/
def kelvinToCelsius (k : JNum) : JNum := jsub k (.fin 273.15)

/-- Temperature formula `(k - 273.15) * 9 / 5 + 32` (line 87). -/
def kelvinToFahrenheit (k : JNum) : JNum :=
  jadd (jdiv (jmul (jsub k (.fin 273.15)) (.fin 9)) (.fin 5)) (.fin 32)

/-- Temperature formula `(f - 32) * 5 / 9 + 273.15` (line 89). -/
def fahrenheitToKelvin (f : JNum) : JNum :=
  jadd (jdiv (jmul (jsub f (.fin 32)) (.fin 5)) (.fin 9)) (.fin 273.15)

/-- The static catalog `COMPLEX_CONVERSION_DATA` (lines 48-133).  Numeric
factors are the exact rational values of the source's decimal literals
(reciprocals such as `1 / 3.28084` are exact rationals in the model). -/
def COMPLEX_CONVERSION_DATA : List ConversionCategory := [
  { id := "length", icon := "tape-measure", label := "Length", conversions := [
      .linear "Meters" "Feet" (.fin 3.28084),
      .linear "Feet" "Meters" (.fin (1 / 3.28084)),
      .linear "Kilometers" "Miles" (.fin 0.621371),
      .linear "Miles" "Kilometers" (.fin (1 / 0.621371)),
      .linear "Centimeters" "Inches" (.fin 0.393701),
      .linear "Inches" "Centimeters" (.fin (1 / 0.393701)),
      .linear "Yards" "Meters" (.fin 0.9144),
      .linear "Meters" "Yards" (.fin (1 / 0.9144))] },
  { id := "mass", icon := "weight-kilogram", label := "Mass", conversions := [
      .linear "Kilograms" "Pounds" (.fin 2.20462),
      .linear "Pounds" "Kilograms" (.fin (1 / 2.20462)),
      .linear "Grams" "Ounces" (.fin 0.035274),
      .linear "Ounces" "Grams" (.fin (1 / 0.035274)),
      .linear "Pounds" "Ounces" (.fin 16),
      .linear "Ounces" "Pounds" (.fin (1 / 16)),
      .linear "Tons" "Kilograms" (.fin 1000),
      .linear "Kilograms" "Tons" (.fin (1 / 1000))] },
  { id := "temperature", icon := "thermometer", label := "Temperature", conversions := [
      .nonlinear "Celsius" "Fahrenheit" celsiusToFahrenheit,
      .nonlinear "Fahrenheit" "Celsius" fahrenheitToCelsius,
      .nonlinear "Celsius" "Kelvin" celsiusToKelvin,
      .nonlinear "Kelvin" "Celsius" kelvinToCelsius,
      .nonlinear "Kelvin" "Fahrenheit" kelvinToFahrenheit,
      .nonlinear "Fahrenheit" "Kelvin" fahrenheitToKelvin] },
  { id := "volume", icon := "bottle-wine", label := "Volume", conversions := [
      .linear "Liters" "Gallons (US)" (.fin 0.264172),
      .linear "Gallons (US)" "Liters" (.fin (1 / 0.264172)),
      .linear "Milliliters" "Fluid Ounces (US)" (.fin 0.033814),
      .linear "Fluid Ounces (US)" "Milliliters" (.fin (1 / 0.033814)),
      .linear "Liters" "Cubic Meters" (.fin 0.001),
      .linear "Cubic Meters" "Liters" (.fin 1000),
      .linear "Gallons (US)" "Gallons (UK)" (.fin 0.832674),
      .linear "Gallons (UK)" "Gallons (US)" (.fin (1 / 0.832674))] },
  { id := "area", icon := "square-outline", label := "Area", conversions := [
      .linear "Square Meters" "Square Feet" (.fin 10.7639),
      .linear "Square Feet" "Square Meters" (.fin (1 / 10.7639)),
      .linear "Square Kilometers" "Square Miles" (.fin 0.386102),
      .linear "Square Miles" "Square Kilometers" (.fin (1 / 0.386102)),
      .linear "Hectares" "Acres" (.fin 2.47105),
      .linear "Acres" "Hectares" (.fin (1 / 2.47105))] },
  { id := "time", icon := "clock-outline", label := "Time", conversions := [
      .linear "Seconds" "Minutes" (.fin (1 / 60)),
      .linear "Minutes" "Seconds" (.fin 60),
      .linear "Minutes" "Hours" (.fin (1 / 60)),
      .linear "Hours" "Minutes" (.fin 60),
      .linear "Hours" "Days" (.fin (1 / 24)),
      .linear "Days" "Hours" (.fin 24),
      .linear "Days" "Weeks" (.fin (1 / 7)),
      .linear "Weeks" "Days" (.fin 7)] },
  { id := "custom", icon := "form-select", label := "Custom", conversions := [] }]

/-! ### Screen state and the conversion engine -/

/-- A history entry (interface `ConversionHistory`, lines 36-44).  The
source sets `id := Date.now().toString()` and `timestamp := Date.now()`;
the clock value is the `now` argument of `convert`. -/
structure ConversionHistory where
  id : String
  timestamp : ℕ
  inputValue : String
  inputUnit : String
  resultValue : String
  outputUnit : String
  category : String
deriving DecidableEq, Repr

/-- The engine-relevant React state of `UnitConverter` (lines 139-154). -/
structure ConvState where
  inputValue : String
  resultValue : String
  activeCategoryId : String
  activeConversionIndex : ℕ
  isSwapped : Bool
  history : List ConversionHistory
  customFromUnit : String
  customToUnit : String
  customFactor : String
deriving Repr

/-- JS `s || d` for strings: the default replaces only the empty string. -/
def orElseStr (s d : String) : String := if s = "" then d else s

/-- The `activeCategory` memo (lines 165-167). -/
def activeCategory (s : ConvState) : Option ConversionCategory :=
  COMPLEX_CONVERSION_DATA.find? (fun d => d.id = s.activeCategoryId)

/-- The synthesized custom factor (line 173-177): `parseFloat` of the
factor text, with NaN coerced to 0. -/
def customParsedFactor (s : ConvState) : JNum :=
  match parseJS s.customFactor with
  | .nan => .fin 0
  | v => v

/-- The `currentConversionSet` memo (lines 170-181): in custom mode a
linear rule is synthesized (`parseFloat` of the factor text, NaN coerced
to 0); otherwise the indexed rule of the active category, if any. -/
def currentConversionSet (s : ConvState) : Option ConversionUnit :=
  if s.activeCategoryId = "custom" then
    some (.linear (orElseStr s.customFromUnit "Unit A") (orElseStr s.customToUnit "Unit B")
      (customParsedFactor s))
  else
    (activeCategory s).bind (fun c => c.conversions[s.activeConversionIndex]?)

/-- The `[inputUnit, outputUnit]` memo (lines 184-202). -/
def displayUnits (s : ConvState) : String × String :=
  if s.activeCategoryId = "custom" then
    if s.isSwapped then
      (orElseStr s.customToUnit "Unit B", orElseStr s.customFromUnit "Unit A")
    else
      (orElseStr s.customFromUnit "Unit A", orElseStr s.customToUnit "Unit B")
  else
    match currentConversionSet s with
    | some (.nonlinear f t _) => (f, t)
    | some (.linear f t _) => if s.isSwapped then (t, f) else (f, t)
    | none => ("", "")

/-- The history record built on a successful conversion (lines 275-283). -/
def mkHistoryItem (now : ℕ) (s : ConvState) (trimmed formatted : String) : ConversionHistory :=
  { id := toString now
    timestamp := now
    inputValue := trimmed
    inputUnit := (displayUnits s).1
    resultValue := formatted
    outputUnit := (displayUnits s).2
    category :=
      if s.activeCategoryId = "custom" then
        "Custom: " ++ orElseStr s.customFromUnit "Unit A" ++ " ↔ " ++ orElseStr s.customToUnit "Unit B"
      else
        match activeCategory s with
        | some c => c.label
        | none => "" }

/-- The numeric computation of `convert` (lines 229-247): the formula for
a non-linear rule; for a linear rule the custom zero-factor short-circuit
(`none`, line 237-240), else `num * (1 / factor)` when swapped and
`num * factor` otherwise (lines 242-247). -/
def rawConverted (catId : String) (swapped : Bool) (u : ConversionUnit) (num : JNum) : Option JNum :=
  match u with
  | .nonlinear _ _ fml => some (fml num)
  | .linear _ _ factor =>
      if catId = "custom" ∧ factor = .fin 0 then none
      else some (if swapped then jmul num (jdiv (.fin 1) factor) else jmul num factor)

/-- The decision core of `convert` (lines 206-251): `none` when no rule is
resolved (the early `return`); otherwise the result string together with
whether a history entry is appended.  This reads only the input text and
the selection fields, never `resultValue` or `history`. -/
def convertStep (s : ConvState) : Option (String × Bool) :=
  match currentConversionSet s with
  | none => none
  | some u =>
    let trimmed := jsTrim s.inputValue
    if trimmed = "" ∨ trimmed = "-" then some ("", false)
    else
      match parseJS trimmed with
      | .nan => some ("", false)
      | .inf => some ("Error", false)
      | .neginf => some ("Error", false)
      | .fin q =>
        match rawConverted s.activeCategoryId s.isSwapped u (.fin q) with
        | none => some ("Factor must be non-zero", false)
        | some converted => some (formatJ converted, true)

/-- The `convert` callback (lines 206-289): applies `convertStep`, writes
the result string, and on success prepends a history entry and truncates
to ten (`[historyItem, ...prev].slice(0, 10)`, line 284).  The history
guard of line 274 re-checks conditions that already hold on this path.
The source's `try`/`catch` (line 286) never fires: every operation of the
model is total. -/
def convert (now : ℕ) (s : ConvState) : ConvState :=
  match convertStep s with
  | none => s
  | some (res, app) =>
    if app then
      { s with resultValue := res
               history := (mkHistoryItem now s (jsTrim s.inputValue) res :: s.history).take 10 }
    else
      { s with resultValue := res }

/-- The `swapConversion` handler (lines 297-321): rejected for the
temperature category and for custom mode with `parseFloat(customFactor)
=== 0` (note: NaN from an unparsable factor text fails that strict
equality); otherwise flips the direction, feeds the previous result back
as the new input, and blanks the result. -/
def swapConversion (s : ConvState) : ConvState :=
  if s.activeCategoryId = "temperature" then s
  else if s.activeCategoryId = "custom" ∧ parseJS s.customFactor = .fin 0 then s
  else
    { s with isSwapped := !s.isSwapped
             resultValue := ""
             inputValue := s.resultValue }

/-- The Clear History action (line 802): `setHistory([])`. -/
def clearHistory (s : ConvState) : ConvState := { s with history := [] }

/-- Drive the engine over a list of `(clock, raw input)` edits: each edit
replaces the input text and re-runs `convert` (the `useEffect` of lines
292-294). -/
def runInputs (s : ConvState) (l : List (ℕ × String)) : ConvState :=
  l.foldl (fun st p => convert p.1 { st with inputValue := p.2 }) s

/-- The initial screen state (lines 139-154): empty input and result,
length category, first rule, unswapped, empty history, empty custom
fields. -/
def baseState : ConvState :=
  { inputValue := "", resultValue := "", activeCategoryId := "length",
    activeConversionIndex := 0, isSwapped := false, history := [],
    customFromUnit := "", customToUnit := "", customFactor := "" }

/-- A long decimal literal (the number `10 ^ 309`, beyond the double
range), written out in digits because an exponent-form literal would
exceed the elaborator's exponent-evaluation threshold. -/
def hugeLit : String := "1000000000000000000000000000000000000000000000000000000000000000000000000000000000000000000000000000000000000000000000000000000000000000000000000000000000000000000000000000000000000000000000000000000000000000000000000000000000000000000000000000000000000000000000000000000000000000000000000000000000000000000000"

/-- Eleven successive successful conversions in custom mode with factor 2,
entering the texts "1" through "11" at clocks 1 through 11. -/
def elevenRuns : ConvState :=
  runInputs { baseState with activeCategoryId := "custom", customFactor := "2" }
    ((List.range 11).map (fun i => (i + 1, toString (i + 1))))

/-! ### Digit and rendering lemmas -/

lemma digitChar_digit {m : ℕ} (h : m < 10) :
    jsDigit (Nat.digitChar m) = true ∧ digVal (Nat.digitChar m) = m := by
  interval_cases m <;> exact ⟨by decide, by decide⟩

lemma digitsVal_append (l : List Char) (c : Char) :
    digitsVal (l ++ [c]) = 10 * digitsVal l + digVal c := by
  simp [digitsVal, List.foldl_append]

lemma natDigitsAux_spec : ∀ fuel n, n ≤ fuel →
    digitsVal (natDigitsAux fuel n) = n ∧ ∀ c ∈ natDigitsAux fuel n, jsDigit c = true := by
  intro fuel
  induction fuel with
  | zero =>
      intro n hn
      interval_cases n
      simp [natDigitsAux, digitsVal]
  | succ f ih =>
      intro n hn
      by_cases h0 : n = 0
      · subst h0; simp [natDigitsAux, digitsVal]
      · have hdiv : n / 10 ≤ f := by omega
        obtain ⟨hv, hd⟩ := ih (n / 10) hdiv
        have hm : n % 10 < 10 := Nat.mod_lt _ (by norm_num)
        refine ⟨?_, ?_⟩
        · rw [natDigitsAux, if_neg h0, digitsVal_append, hv, (digitChar_digit hm).2]
          omega
        · intro c hc
          rw [natDigitsAux, if_neg h0] at hc
          rcases List.mem_append.mp hc with h | h
          · exact hd c h
          · rw [List.mem_singleton.mp h]; exact (digitChar_digit hm).1

lemma digitsVal_natDigits (n : ℕ) : digitsVal (natDigits n) = n := by
  unfold natDigits
  split
  · simp_all [digitsVal, digVal]
  · exact (natDigitsAux_spec n n le_rfl).1

lemma natDigits_digits (n : ℕ) : ∀ c ∈ natDigits n, jsDigit c = true := by
  unfold natDigits
  split
  · intro c hc; rw [List.mem_singleton.mp hc]; decide
  · exact (natDigitsAux_spec n n le_rfl).2

lemma natDigits_ne_nil (n : ℕ) : natDigits n ≠ [] := by
  by_cases h0 : n = 0
  · subst h0; decide
  · intro h
    have hv := digitsVal_natDigits n
    rw [h] at hv
    simp [digitsVal] at hv
    exact h0 hv.symm

lemma natDigitsPad_spec : ∀ w n, digitsVal (natDigitsPad w n) = n % 10 ^ w ∧
    (natDigitsPad w n).length = w ∧ ∀ c ∈ natDigitsPad w n, jsDigit c = true := by
  intro w
  induction w with
  | zero => intro n; simp [natDigitsPad, digitsVal, Nat.mod_one]
  | succ f ih =>
      intro n
      obtain ⟨hv, hl, hd⟩ := ih (n / 10)
      have hm : n % 10 < 10 := Nat.mod_lt _ (by norm_num)
      refine ⟨?_, ?_, ?_⟩
      · rw [natDigitsPad, digitsVal_append, hv, (digitChar_digit hm).2]
        have hsplit : n % 10 ^ (f + 1) = n % 10 + 10 * (n / 10 % 10 ^ f) := by
          rw [pow_succ', Nat.mod_mul]
        omega
      · rw [natDigitsPad]; simp [hl]
      · intro c hc
        rw [natDigitsPad] at hc
        rcases List.mem_append.mp hc with h | h
        · exact hd c h
        · rw [List.mem_singleton.mp h]; exact (digitChar_digit hm).1

/-! ### List span lemmas -/

lemma span_exact {p : Char → Bool} :
    ∀ (d r : List Char), (∀ c ∈ d, p c = true) → (∀ c, r.head? = some c → p c = false) →
      (d ++ r).takeWhile p = d ∧ (d ++ r).dropWhile p = r := by
  intro d
  induction d with
  | nil =>
      intro r _ h2
      cases r with
      | nil => simp
      | cons c t => have := h2 c rfl; simp [List.takeWhile_cons, List.dropWhile_cons, this]
  | cons a d ih =>
      intro r h1 h2
      have ha := h1 a (List.mem_cons_self a d)
      obtain ⟨ht, hd⟩ := ih r (fun c hc => h1 c (List.mem_cons_of_mem _ hc)) h2
      simp [List.takeWhile_cons, List.dropWhile_cons, ha, ht, hd]

lemma dropWhile_eq_self_of_head {p : Char → Bool} :
    ∀ l : List Char, (∀ c, l.head? = some c → p c = false) → l.dropWhile p = l := by
  intro l h
  cases l with
  | nil => simp
  | cons c t => have := h c rfl; simp [List.dropWhile_cons, this]

lemma dropWhile_append_left {p : Char → Bool} :
    ∀ (l1 l2 : List Char), l1.dropWhile p ≠ [] →
      (l1 ++ l2).dropWhile p = l1.dropWhile p ++ l2 := by
  intro l1
  induction l1 with
  | nil => intro l2 h; simp at h
  | cons a t ih =>
      intro l2 h
      by_cases ha : p a
      · rw [List.dropWhile_cons, if_pos ha] at h ⊢
        rw [List.cons_append, List.dropWhile_cons, if_pos ha]
        exact ih l2 h
      · rw [List.dropWhile_cons, if_neg ha]
        rw [List.cons_append, List.dropWhile_cons, if_neg ha]

lemma head_dropWhile_false {p : Char → Bool} :
    ∀ (l : List Char) c t, l.dropWhile p = c :: t → p c = false := by
  intro l
  induction l with
  | nil => intro c t h; simp at h
  | cons a l ih =>
      intro c t h
      rw [List.dropWhile_cons] at h
      split at h
      · exact ih c t h
      · injection h with h1 _
        subst h1
        simpa using ‹¬p a = true›

/-! ### Characterization of parseJS on rendered numerals -/

lemma digitsVal_nil : digitsVal [] = 0 := rfl

lemma jsDigit_not_ws {c : Char} (h : jsDigit c = true) : wsChar c = false := by
  simp only [wsChar, decide_eq_false_iff_not]
  intro hc
  rcases hc with h' | h' | h' | h' <;> (subst h'; exact absurd h (by decide))

lemma parseAfterSign_int (ip : ℕ) : parseAfterSign (natDigits ip) = some (ip : ℚ) := by
  have h := span_exact (natDigits ip) [] (natDigits_digits ip) (by intro c hc; simp at hc)
  rw [List.append_nil] at h
  unfold parseAfterSign
  rw [h.1, h.2]
  have hne : (natDigits ip).isEmpty = false := by
    simp [List.isEmpty_iff, natDigits_ne_nil ip]
  simp [hne, parseExpPart, digitsVal_natDigits, digitsVal_nil, pow10]

lemma parseAfterSign_frac (ip : ℕ) (fs : List Char) (hfs : ∀ c ∈ fs, jsDigit c = true) :
    parseAfterSign (natDigits ip ++ '.' :: fs) =
      some ((ip : ℚ) + (digitsVal fs : ℚ) / 10 ^ fs.length) := by
  have h := span_exact (natDigits ip) ('.' :: fs) (natDigits_digits ip)
    (by intro c hc; simp at hc; subst hc; decide)
  have h2 := span_exact fs [] hfs (by intro c hc; simp at hc)
  rw [List.append_nil] at h2
  unfold parseAfterSign
  rw [h.1, h.2]
  simp only [h2.1, h2.2]
  have hne : (natDigits ip).isEmpty = false := by
    simp [List.isEmpty_iff, natDigits_ne_nil ip]
  simp [hne, parseExpPart, digitsVal_natDigits, pow10]

lemma parseJS_cons_digit (c : Char) (t : List Char) (q : ℚ) (hc : jsDigit c = true)
    (h : parseAfterSign (c :: t) = some q) : parseJS ⟨c :: t⟩ = chk q := by
  have hcm : c ≠ '-' := by intro h'; subst h'; exact absurd hc (by decide)
  have hcp : c ≠ '+' := by intro h'; subst h'; exact absurd hc (by decide)
  have hcI : c ≠ 'I' := by intro h'; subst h'; exact absurd hc (by decide)
  unfold parseJS
  have hdrop : (c :: t).dropWhile wsChar = c :: t :=
    dropWhile_eq_self_of_head _ (by intro d hd; cases hd; exact jsDigit_not_ws hc)
  simp only [String.data]
  rw [hdrop]
  have hsign : ¬((c :: t).head? = some '-' ∨ (c :: t).head? = some '+') := by
    simp [hcm, hcp]
  rw [if_neg hsign]
  have hinf : (c :: t).take 8 ≠ "Infinity".data := by
    intro h'
    rw [List.take_succ_cons] at h'
    exact hcI (List.head_eq_of_cons_eq h')
  rw [if_neg hinf, h]
  have hneg : ((c :: t).head? = some '-') = False := by simp [hcm]
  simp only [hneg]
  simp [hcm]

lemma parseJS_neg_digit (c : Char) (t : List Char) (q : ℚ) (hc : jsDigit c = true)
    (h : parseAfterSign (c :: t) = some q) : parseJS ⟨'-' :: c :: t⟩ = chk (-q) := by
  have hcI : c ≠ 'I' := by intro h'; subst h'; exact absurd hc (by decide)
  unfold parseJS
  have hdrop : ('-' :: c :: t).dropWhile wsChar = '-' :: c :: t :=
    dropWhile_eq_self_of_head _ (by intro d hd; cases hd; decide)
  simp only [String.data]
  rw [hdrop]
  have hsign : (('-' :: c :: t).head? = some '-' ∨ ('-' :: c :: t).head? = some '+') := by
    left; rfl
  rw [if_pos hsign]
  have hinf : ('-' :: c :: t).tail.take 8 ≠ "Infinity".data := by
    intro h'
    rw [List.tail_cons, List.take_succ_cons] at h'
    exact hcI (List.head_eq_of_cons_eq h')
  rw [if_neg hinf]
  rw [List.tail_cons, h]
  have hneg : (('-' :: c :: t).head? = some '-') = True := by simp
  simp [hneg]

/-! ### Trailing-zero stripping lemmas -/

lemma dropWhile_append_nil {p : Char → Bool} :
    ∀ (l1 l2 : List Char), l1.dropWhile p = [] → (l1 ++ l2).dropWhile p = l2.dropWhile p := by
  intro l1
  induction l1 with
  | nil => intro l2 _; simp
  | cons a t ih =>
      intro l2 h
      rw [List.dropWhile_cons] at h
      by_cases ha : p a
      · rw [if_pos ha] at h
        rw [List.cons_append, List.dropWhile_cons, if_pos ha]
        exact ih l2 h
      · rw [if_neg ha] at h; simp at h

lemma trailing_zeros_decomp (B : List Char) :
    B = (B.reverse.dropWhile (· = '0')).reverse ++
        List.replicate (B.reverse.takeWhile (· = '0')).length '0' := by
  conv_lhs => rw [← List.reverse_reverse B,
    ← List.takeWhile_append_dropWhile (p := (· = '0')) (l := B.reverse)]
  rw [List.reverse_append]
  congr 1
  have h : ∀ c ∈ (B.reverse.takeWhile (· = '0')).reverse, c = '0' := by
    intro c hc
    have := List.mem_takeWhile_imp (List.mem_reverse.mp hc)
    simpa using this
  have := List.eq_replicate_of_mem h
  simpa using this

lemma digitsVal_append_zeros (a : List Char) (k : ℕ) :
    digitsVal (a ++ List.replicate k '0') = digitsVal a * 10 ^ k := by
  induction k with
  | zero => simp
  | succ m ih =>
      rw [List.replicate_succ', ← List.append_assoc, digitsVal_append, ih]
      simp [digVal]
      ring

lemma stripFixed_all_zeros (A B : List Char) (h : B.reverse.dropWhile (· = '0') = []) :
    stripFixed ⟨A ++ '.' :: B⟩ = ⟨A⟩ := by
  unfold stripFixed
  simp only [String.data]
  rw [show (A ++ '.' :: B).reverse = B.reverse ++ '.' :: A.reverse by simp]
  rw [dropWhile_append_nil _ _ h]
  simp

lemma stripFixed_some (A B : List Char) (c : Char) (t : List Char)
    (h : B.reverse.dropWhile (· = '0') = c :: t) (hc : c ≠ '.') :
    stripFixed ⟨A ++ '.' :: B⟩ = ⟨A ++ '.' :: (c :: t).reverse⟩ := by
  unfold stripFixed
  simp only [String.data]
  rw [show (A ++ '.' :: B).reverse = B.reverse ++ '.' :: A.reverse by simp]
  rw [dropWhile_append_left _ _ (by rw [h]; simp)]
  rw [h]
  rw [show (c :: t) ++ '.' :: A.reverse = c :: (t ++ '.' :: A.reverse) by simp]
  simp [hc]

lemma stripped_frac_digits (F : List Char) (hF : ∀ c ∈ F, jsDigit c = true) :
    ∀ c ∈ (F.reverse.dropWhile (· = '0')).reverse, jsDigit c = true := by
  intro c hc
  apply hF
  rw [← List.reverse_reverse F]
  apply List.mem_reverse.mpr
  exact (List.dropWhile_sublist _).mem (List.mem_reverse.mp hc)

lemma stripped_frac_val (F : List Char) :
    (digitsVal ((F.reverse.dropWhile (· = '0')).reverse) : ℚ) /
        10 ^ ((F.reverse.dropWhile (· = '0')).reverse).length =
      (digitsVal F : ℚ) / 10 ^ F.length := by
  set B' := (F.reverse.dropWhile (· = '0')).reverse with hB'
  set k := (F.reverse.takeWhile (· = '0')).length with hk
  have hdec := trailing_zeros_decomp F
  rw [← hB', ← hk] at hdec
  have hval : digitsVal F = digitsVal B' * 10 ^ k := by
    conv_lhs => rw [hdec]
    exact digitsVal_append_zeros B' k
  have hlen : F.length = B'.length + k := by
    conv_lhs => rw [hdec]; simp
  rw [hval, hlen, pow_add]
  push_cast
  have h10 : ((10 : ℚ) ^ B'.length) ≠ 0 := by positivity
  have h10k : ((10 : ℚ) ^ k) ≠ 0 := by positivity
  field_simp
  ring

/-! ### Rounding at eight decimals -/

/-- The exact value rendered by the `toFixed(8)`-then-strip pipeline. -/
def rnd8 (v : ℚ) : ℚ :=
  (if v < 0 then -1 else 1) * (((⌊|v| * 10 ^ 8 + 1 / 2⌋).toNat : ℚ) / 10 ^ 8)

lemma floorHalf_bounds (x : ℚ) (hx : 0 ≤ x) :
    ((⌊x + 1 / 2⌋.toNat : ℚ)) ≤ x + 1 / 2 ∧ x + 1 / 2 < (⌊x + 1 / 2⌋.toNat : ℚ) + 1 := by
  have h0 : (0 : ℤ) ≤ ⌊x + 1 / 2⌋ := Int.floor_nonneg.mpr (by linarith)
  have hcast : ((⌊x + 1 / 2⌋.toNat : ℚ)) = ((⌊x + 1 / 2⌋ : ℤ) : ℚ) := by
    exact_mod_cast congrArg (fun z => ((z : ℤ) : ℚ)) (Int.toNat_of_nonneg h0)
  rw [hcast]
  exact ⟨Int.floor_le _, Int.lt_floor_add_one _⟩

lemma rnd8_close (v : ℚ) : |rnd8 v - v| ≤ 1 / (2 * 10 ^ 8) := by
  have hb := floorHalf_bounds (|v| * 10 ^ 8) (by positivity)
  set M : ℚ := ((⌊|v| * 10 ^ 8 + 1 / 2⌋).toNat : ℚ) with hM
  have key : |M - |v| * 10 ^ 8| ≤ 1 / 2 := by
    rw [abs_le]; constructor <;> linarith [hb.1, hb.2]
  have habs : abs (M / 10 ^ 8 - |v|) ≤ 1 / (2 * 10 ^ 8) := by
    rw [show M / 10 ^ 8 - |v| = (M - |v| * 10 ^ 8) / 10 ^ 8 by ring, abs_div,
      abs_of_pos (by norm_num : (0:ℚ) < 10 ^ 8)]
    rw [show (1 : ℚ) / (2 * 10 ^ 8) = (1 / 2) / 10 ^ 8 by ring]
    gcongr
  by_cases hv : v < 0
  · have : rnd8 v - v = -(M / 10 ^ 8 - |v|) := by
      unfold rnd8; rw [if_pos hv, ← hM, abs_of_neg hv]; ring
    rw [this, abs_neg]; exact habs
  · have : rnd8 v - v = M / 10 ^ 8 - |v| := by
      unfold rnd8; rw [if_neg hv, ← hM, abs_of_nonneg (not_lt.mp hv)]; ring
    rw [this]; exact habs

lemma rnd8_sign_abs (v : ℚ) : (if v < 0 then (-1 : ℚ) else 1) * |v| = v := by
  by_cases hv : v < 0
  · rw [if_pos hv, abs_of_neg hv]; ring
  · rw [if_neg hv, abs_of_nonneg (not_lt.mp hv)]; ring

lemma rnd8_int (v : ℚ) (hden : v.den = 1) : rnd8 v = v := by
  have habs : |v|.den = 1 := by
    rcases abs_choice v with h | h <;> rw [h]
    · exact hden
    · simpa [Rat.neg_den] using hden
  have hnum : (0 : ℤ) ≤ |v|.num := Rat.num_nonneg.mpr (abs_nonneg v)
  have hv : ((|v|.num.toNat : ℚ)) = |v| := by
    have h1 : ((|v|.num : ℚ)) = |v| := by
      conv_rhs => rw [← Rat.num_div_den |v|]
      rw [habs]; push_cast; ring
    rw [← h1]
    exact_mod_cast congrArg (fun z => ((z : ℤ) : ℚ)) (Int.toNat_of_nonneg hnum)
  set n : ℕ := |v|.num.toNat with hn
  have hfloor : ⌊|v| * 10 ^ 8 + 1 / 2⌋ = (n * 10 ^ 8 : ℕ) := by
    rw [← hv]
    have : ((n : ℚ)) * 10 ^ 8 + 1 / 2 = ((n * 10 ^ 8 : ℕ) : ℤ) + (1 / 2 : ℚ) := by
      push_cast; ring
    rw [this, Int.floor_int_add]
    norm_num
  unfold rnd8
  rw [hfloor]
  have : (((n * 10 ^ 8 : ℕ) : ℤ).toNat : ℚ) / 10 ^ 8 = |v| := by
    rw [Int.toNat_natCast, ← hv]
    have hc : ((n * 10 ^ 8 : ℕ) : ℚ) = (n : ℚ) * 10 ^ 8 := by push_cast; ring
    rw [hc, mul_div_assoc, div_self (by norm_num : ((10:ℚ) ^ 8) ≠ 0), mul_one]
  rw [this, rnd8_sign_abs]

/-! ### Shape of formatJ for small finite values -/

lemma formatJ_int_small (v : ℚ) (hden : v.den = 1) (hb : |v| < 1000) :
    formatJ (.fin v) = ⟨intChars v.num⟩ := by
  unfold formatJ
  have h1 : jFracNonzero (.fin v) = false := by simp [jFracNonzero, hden]
  have h2 : jAbs1000 (.fin v) = false := by
    simp only [jAbs1000, decide_eq_false_iff_not]
    exact not_le.mpr hb
  simp [h1, h2, jToString]

lemma formatJ_frac_small (v : ℚ) (hden : v.den ≠ 1) (hb : |v| < 1000) :
    formatJ (.fin v) = stripFixed (toFixed8 v) := by
  unfold formatJ
  have h1 : jFracNonzero (.fin v) = true := by simp [jFracNonzero, hden]
  have h2 : jAbs1000 (.fin v) = false := by
    simp only [jAbs1000, decide_eq_false_iff_not]
    exact not_le.mpr hb
  simp [h1, h2, jToFixed8]

lemma natDigits_cons (n : ℕ) : ∃ c t, natDigits n = c :: t ∧ jsDigit c = true := by
  cases h : natDigits n with
  | nil => exact absurd h (natDigits_ne_nil _)
  | cons c t =>
      refine ⟨c, t, rfl, ?_⟩
      apply natDigits_digits n
      rw [h]
      exact List.mem_cons_self _ _

lemma parseJS_signInt (neg : Bool) (ip : ℕ) :
    parseJS ⟨(if neg then ['-'] else []) ++ natDigits ip⟩ =
      chk ((if neg then (-1 : ℚ) else 1) * (ip : ℚ)) := by
  obtain ⟨c, t, hct, hc⟩ := natDigits_cons ip
  have hps : parseAfterSign (c :: t) = some ((ip : ℚ)) := by
    rw [← hct]; exact parseAfterSign_int _
  cases neg with
  | true =>
      have hls : ((if (true : Bool) = true then ['-'] else []) ++ natDigits ip) = '-' :: c :: t := by
        rw [if_pos rfl, hct]; rfl
      rw [hls, parseJS_neg_digit c t _ hc hps]
      congr 1
      norm_num
  | false =>
      have hls : ((if (false : Bool) = true then ['-'] else []) ++ natDigits ip) = c :: t := by
        rw [if_neg (by decide), hct]; rfl
      rw [hls, parseJS_cons_digit c t _ hc hps]
      congr 1
      norm_num

lemma parseJS_signFrac (neg : Bool) (ip : ℕ) (fs : List Char)
    (hfs : ∀ c ∈ fs, jsDigit c = true) :
    parseJS ⟨(if neg then ['-'] else []) ++ natDigits ip ++ '.' :: fs⟩ =
      chk ((if neg then (-1 : ℚ) else 1) * ((ip : ℚ) + (digitsVal fs : ℚ) / 10 ^ fs.length)) := by
  obtain ⟨c, t, hct, hc⟩ := natDigits_cons ip
  have hfull : natDigits ip ++ '.' :: fs = c :: (t ++ '.' :: fs) := by rw [hct]; rfl
  have hps : parseAfterSign (c :: (t ++ '.' :: fs)) =
      some ((ip : ℚ) + (digitsVal fs : ℚ) / 10 ^ fs.length) := by
    rw [show c :: (t ++ '.' :: fs) = (c :: t) ++ '.' :: fs by rfl, ← hct]
    exact parseAfterSign_frac ip fs hfs
  cases neg with
  | true =>
      have hls : (((if (true : Bool) = true then ['-'] else []) ++ natDigits ip) ++ '.' :: fs) =
          '-' :: c :: (t ++ '.' :: fs) := by
        rw [if_pos rfl, hct]; rfl
      rw [hls, parseJS_neg_digit _ _ _ hc hps]
      congr 1
      norm_num
  | false =>
      have hls : (((if (false : Bool) = true then ['-'] else []) ++ natDigits ip) ++ '.' :: fs) =
          c :: (t ++ '.' :: fs) := by
        rw [if_neg (by decide), hct]; rfl
      rw [hls, parseJS_cons_digit _ _ _ hc hps]
      congr 1
      norm_num

lemma num_cast_of_den_one (v : ℚ) (hden : v.den = 1) : ((v.num : ℚ)) = v := by
  conv_rhs => rw [← Rat.num_div_den v]
  rw [hden]
  push_cast
  ring

lemma chk_small (q : ℚ) (h : |q| < 1001) : chk q = .fin q := by
  have hq : |q| < OVF := by
    rw [OVF_eq]
    calc |q| < 1001 := h
      _ < 2 ^ 1024 := by norm_num
  unfold chk
  rw [if_pos hq]

lemma parse_format_fin (v : ℚ) (hb : |v| < 1000) :
    parseJS (formatJ (.fin v)) = .fin (rnd8 v) := by
  by_cases hden : v.den = 1
  · have hv : ((v.num : ℚ)) = v := num_cast_of_den_one v hden
    rw [formatJ_int_small v hden hb, rnd8_int v hden]
    have habs : ((v.num.natAbs : ℚ)) = |v| := by
      rw [← Int.cast_natCast, Int.natCast_natAbs, Int.cast_abs, hv]
    by_cases hn : v.num < 0
    · have hneg : v < 0 := by
        rw [← hv]; exact_mod_cast hn
      have hi : intChars v.num = (if (true : Bool) = true then ['-'] else []) ++ natDigits v.num.natAbs := by
        unfold intChars; rw [if_pos hn, if_pos rfl]
      rw [hi, parseJS_signInt true v.num.natAbs]
      rw [show (if (true : Bool) = true then (-1 : ℚ) else 1) = -1 from rfl]
      rw [habs, abs_of_neg hneg]
      rw [show (-1 : ℚ) * - v = v by ring]
      rw [chk_small v (by linarith)]
    · have hpos : 0 ≤ v := by
        rw [← hv]; exact_mod_cast not_lt.mp hn
      have hi : intChars v.num = (if (false : Bool) = true then ['-'] else []) ++ natDigits v.num.natAbs := by
        unfold intChars; rw [if_neg hn, if_neg (by decide)]
      rw [hi, parseJS_signInt false v.num.natAbs]
      rw [show (if (false : Bool) = true then (-1 : ℚ) else 1) = 1 from rfl]
      rw [habs, abs_of_nonneg hpos, one_mul]
      rw [chk_small v (by linarith)]
  · rw [formatJ_frac_small v hden hb]
    set m : ℕ := (⌊|v| * 10 ^ 8 + 1 / 2⌋).toNat with hm
    set F := natDigitsPad 8 (m % 10 ^ 8) with hF
    have htf : toFixed8 v =
        ⟨((if v < 0 then ['-'] else []) ++ natDigits (m / 10 ^ 8)) ++ '.' :: F⟩ := by
      unfold toFixed8
      rw [← hm]
      try simp [List.append_assoc]
    have hFd : ∀ c ∈ F, jsDigit c = true := by
      rw [hF]; exact (natDigitsPad_spec 8 (m % 10 ^ 8)).2.2
    have hfr : (digitsVal F : ℚ) / 10 ^ F.length = ((m % 10 ^ 8 : ℕ) : ℚ) / 10 ^ 8 := by
      rw [hF, (natDigitsPad_spec 8 _).1, (natDigitsPad_spec 8 _).2.1]
      congr 2
      have : (10 : ℕ) ^ 8 = 100000000 := by norm_num
      rw [this]
      omega
    have hMval : ((m / 10 ^ 8 : ℕ) : ℚ) + ((m % 10 ^ 8 : ℕ) : ℚ) / 10 ^ 8 = (m : ℚ) / 10 ^ 8 := by
      have h := Nat.div_add_mod m (10 ^ 8)
      have h2 : ((10 ^ 8 * (m / 10 ^ 8) + m % 10 ^ 8 : ℕ) : ℚ) = (m : ℚ) :=
        congrArg Nat.cast h
      push_cast at h2
      field_simp
      linarith
    have hmle : (m : ℚ) ≤ |v| * 10 ^ 8 + 1 / 2 := by
      rw [hm]; exact (floorHalf_bounds (|v| * 10 ^ 8) (by positivity)).1
    have hMb : (m : ℚ) / 10 ^ 8 < 1001 := by
      rw [div_lt_iff₀ (by norm_num : (0 : ℚ) < 10 ^ 8)]
      nlinarith
    have hbnd : ∀ s : ℚ, s = -1 ∨ s = 1 →
        chk (s * ((m : ℚ) / 10 ^ 8)) = .fin (s * ((m : ℚ) / 10 ^ 8)) := by
      intro s hs
      apply chk_small
      have habs : |s * ((m : ℚ) / 10 ^ 8)| = (m : ℚ) / 10 ^ 8 := by
        rcases hs with h | h <;> subst h <;>
          rw [abs_mul] <;> simp [abs_of_nonneg (by positivity : (0:ℚ) ≤ (m : ℚ) / 10 ^ 8)]
      rw [habs]
      exact hMb
    cases hstrip : F.reverse.dropWhile (· = '0') with
    | nil =>
        rw [htf, stripFixed_all_zeros _ _ hstrip]
        have hz : ((m % 10 ^ 8 : ℕ) : ℚ) = 0 := by
          have hdec := trailing_zeros_decomp F
          rw [hstrip] at hdec
          simp only [List.reverse_nil, List.nil_append] at hdec
          have hzv : digitsVal F = 0 := by
            rw [hdec]
            have := digitsVal_append_zeros [] (F.reverse.takeWhile (· = '0')).length
            simpa [digitsVal_nil] using this
          have := (natDigitsPad_spec 8 (m % 10 ^ 8)).1
          rw [← hF, hzv] at this
          have h8 : (10 : ℕ) ^ 8 = 100000000 := by norm_num
          rw [h8] at this
          have : m % 10 ^ 8 = 0 := by
            rw [show (10:ℕ) ^ 8 = 100000000 by norm_num]
            omega
          rw [this]
          norm_num
        by_cases hneg : v < 0
        · rw [if_pos hneg, show (['-'] : List Char) = (if (true : Bool) = true then ['-'] else []) from rfl,
            parseJS_signInt true (m / 10 ^ 8)]
          unfold rnd8
          rw [if_pos hneg, ← hm]
          have hipval : ((m / 10 ^ 8 : ℕ) : ℚ) = (m : ℚ) / 10 ^ 8 := by
            rw [← hMval, hz]; ring
          rw [show (if (true : Bool) = true then (-1 : ℚ) else 1) = -1 from rfl, hipval]
          rw [hbnd (-1) (Or.inl rfl)]
        · rw [if_neg hneg, show ([] : List Char) = (if (false : Bool) = true then ['-'] else []) from rfl,
            parseJS_signInt false (m / 10 ^ 8)]
          unfold rnd8
          rw [if_neg hneg, ← hm]
          have hipval : ((m / 10 ^ 8 : ℕ) : ℚ) = (m : ℚ) / 10 ^ 8 := by
            rw [← hMval, hz]; ring
          rw [show (if (false : Bool) = true then (-1 : ℚ) else 1) = 1 from rfl, hipval]
          rw [hbnd 1 (Or.inr rfl)]
    | cons c t =>
        have hcd : jsDigit c = true := by
          apply hFd
          have hmem : c ∈ F.reverse.dropWhile (· = '0') := by
            rw [hstrip]; exact List.mem_cons_self _ _
          exact List.mem_reverse.mp ((List.dropWhile_sublist _).mem hmem)
        have hcne : c ≠ '.' := by
          intro h'; subst h'; exact absurd hcd (by decide)
        rw [htf, stripFixed_some _ _ c t hstrip hcne]
        have hB'd : ∀ x ∈ (c :: t).reverse, jsDigit x = true := by
          intro x hx
          apply hFd
          have hmem : x ∈ F.reverse.dropWhile (· = '0') := by
            rw [hstrip]; exact List.mem_reverse.mp hx
          exact List.mem_reverse.mp ((List.dropWhile_sublist _).mem hmem)
        have hfrac' : (digitsVal (c :: t).reverse : ℚ) / 10 ^ (c :: t).reverse.length =
            ((m % 10 ^ 8 : ℕ) : ℚ) / 10 ^ 8 := by
          have := stripped_frac_val F
          rw [hstrip] at this
          rw [this, hfr]
        by_cases hneg : v < 0
        · rw [if_pos hneg, show (['-'] : List Char) = (if (true : Bool) = true then ['-'] else []) from rfl]
          rw [show ((if (true : Bool) = true then ['-'] else []) ++ natDigits (m / 10 ^ 8)) ++
              '.' :: (c :: t).reverse =
              (if (true : Bool) = true then ['-'] else []) ++ natDigits (m / 10 ^ 8) ++
              '.' :: (c :: t).reverse from by simp [List.append_assoc]]
          rw [parseJS_signFrac true (m / 10 ^ 8) (c :: t).reverse hB'd]
          rw [hfrac', hMval]
          unfold rnd8
          rw [if_pos hneg, ← hm]
          rw [show (if (true : Bool) = true then (-1 : ℚ) else 1) = -1 from rfl]
          rw [hbnd (-1) (Or.inl rfl)]
        · rw [if_neg hneg, show ([] : List Char) = (if (false : Bool) = true then ['-'] else []) from rfl]
          rw [show ((if (false : Bool) = true then ['-'] else []) ++ natDigits (m / 10 ^ 8)) ++
              '.' :: (c :: t).reverse =
              (if (false : Bool) = true then ['-'] else []) ++ natDigits (m / 10 ^ 8) ++
              '.' :: (c :: t).reverse from by simp [List.append_assoc]]
          rw [parseJS_signFrac false (m / 10 ^ 8) (c :: t).reverse hB'd]
          rw [hfrac', hMval]
          unfold rnd8
          rw [if_neg hneg, ← hm]
          rw [show (if (false : Bool) = true then (-1 : ℚ) else 1) = 1 from rfl]
          rw [hbnd 1 (Or.inr rfl)]

/-! ### Trim behaviour on non-whitespace strings -/

lemma dropWhile_eq_self_of_all {p : Char → Bool} (l : List Char)
    (h : ∀ c ∈ l, p c = false) : l.dropWhile p = l := by
  cases l with
  | nil => simp
  | cons c t =>
      rw [List.dropWhile_cons, if_neg (by simp [h c (List.mem_cons_self c t)])]

lemma jsTrim_eq_self (l : List Char) (h : ∀ c ∈ l, wsChar c = false) : jsTrim ⟨l⟩ = ⟨l⟩ := by
  unfold jsTrim
  simp only [String.data]
  rw [dropWhile_eq_self_of_all l h,
    dropWhile_eq_self_of_all l.reverse (fun c hc => h c (List.mem_reverse.mp hc)),
    List.reverse_reverse]

/-! ### Catalog facts -/

lemma catalog_nonlinear_check :
    (COMPLEX_CONVERSION_DATA.all (fun c =>
      c.conversions.all (fun u => u.isNonLinear == (c.id == "temperature")))) = true := by
  rfl

lemma catalog_nonlinear_iff :
    ∀ c ∈ COMPLEX_CONVERSION_DATA, ∀ u ∈ c.conversions,
      (u.isNonLinear = true ↔ c.id = "temperature") := by
  intro c hc u hu
  have h1 := List.all_eq_true.mp catalog_nonlinear_check c hc
  have h2 := List.all_eq_true.mp h1 u hu
  have h3 : u.isNonLinear = (c.id == "temperature") := by simpa using h2
  rw [h3]
  exact beq_iff_eq

lemma currentConversionSet_catalog (s : ConvState) (u : ConversionUnit)
    (hid : s.activeCategoryId ≠ "custom")
    (h : currentConversionSet s = some u) :
    ∃ c ∈ COMPLEX_CONVERSION_DATA, c.id = s.activeCategoryId ∧ u ∈ c.conversions := by
  unfold currentConversionSet at h
  rw [if_neg hid] at h
  unfold activeCategory at h
  cases hfind : COMPLEX_CONVERSION_DATA.find? (fun d => d.id = s.activeCategoryId) with
  | none => rw [hfind] at h; simp at h
  | some c =>
      rw [hfind] at h
      simp only [Option.some_bind] at h
      refine ⟨c, List.mem_of_find?_eq_some hfind, ?_, ?_⟩
      · have := List.find?_some hfind
        simpa using this
      · exact List.getElem?_mem h

lemma nonlinear_imp_temp (s : ConvState) (u : ConversionUnit)
    (h : currentConversionSet s = some u) (hnl : u.isNonLinear = true) :
    s.activeCategoryId = "temperature" := by
  by_cases hid : s.activeCategoryId = "custom"
  · unfold currentConversionSet at h
    rw [if_pos hid] at h
    have hu := Option.some.inj h
    rw [← hu] at hnl
    simp [ConversionUnit.isNonLinear] at hnl
  · obtain ⟨c, hc, hcid, hu⟩ := currentConversionSet_catalog s u hid h
    rw [← hcid]
    exact (catalog_nonlinear_iff c hc u hu).mp hnl

lemma linear_imp_not_temp (s : ConvState) (a b : String) (f : JNum)
    (h : currentConversionSet s = some (.linear a b f)) :
    s.activeCategoryId ≠ "temperature" := by
  intro htemp
  have hid : s.activeCategoryId ≠ "custom" := by rw [htemp]; decide
  obtain ⟨c, hc, hcid, hu⟩ := currentConversionSet_catalog s _ hid h
  have := (catalog_nonlinear_iff c hc _ hu).mpr (by rw [hcid, htemp])
  simp [ConversionUnit.isNonLinear] at this

/-! ### Basic facts about convert -/

lemma convert_eq_none (now : ℕ) (s : ConvState) (h : convertStep s = none) :
    convert now s = s := by
  unfold convert; rw [h]

lemma convert_eq_noapp (now : ℕ) (s : ConvState) (res : String)
    (h : convertStep s = some (res, false)) :
    convert now s = { s with resultValue := res } := by
  unfold convert; rw [h]; rfl

lemma convert_eq_app (now : ℕ) (s : ConvState) (res : String)
    (h : convertStep s = some (res, true)) :
    convert now s =
      { s with resultValue := res,
               history := (mkHistoryItem now s (jsTrim s.inputValue) res :: s.history).take 10 } := by
  unfold convert; rw [h]; rfl

lemma convert_selection (now : ℕ) (s : ConvState) :
    (convert now s).inputValue = s.inputValue ∧
    (convert now s).activeCategoryId = s.activeCategoryId ∧
    (convert now s).activeConversionIndex = s.activeConversionIndex ∧
    (convert now s).isSwapped = s.isSwapped ∧
    (convert now s).customFromUnit = s.customFromUnit ∧
    (convert now s).customToUnit = s.customToUnit ∧
    (convert now s).customFactor = s.customFactor := by
  cases h : convertStep s with
  | none => rw [convert_eq_none now s h]; exact ⟨rfl, rfl, rfl, rfl, rfl, rfl, rfl⟩
  | some p =>
      rcases p with ⟨res, app⟩
      cases app
      · rw [convert_eq_noapp now s res h]; exact ⟨rfl, rfl, rfl, rfl, rfl, rfl, rfl⟩
      · rw [convert_eq_app now s res h]; exact ⟨rfl, rfl, rfl, rfl, rfl, rfl, rfl⟩

lemma convertStep_congr (s₁ s₂ : ConvState)
    (h1 : s₁.inputValue = s₂.inputValue)
    (h2 : s₁.activeCategoryId = s₂.activeCategoryId)
    (h3 : s₁.activeConversionIndex = s₂.activeConversionIndex)
    (h4 : s₁.isSwapped = s₂.isSwapped)
    (h5 : s₁.customFromUnit = s₂.customFromUnit)
    (h6 : s₁.customToUnit = s₂.customToUnit)
    (h7 : s₁.customFactor = s₂.customFactor) :
    convertStep s₁ = convertStep s₂ := by
  have hcur : currentConversionSet s₁ = currentConversionSet s₂ := by
    unfold currentConversionSet activeCategory customParsedFactor
    rw [h2, h3, h5, h6, h7]
  unfold convertStep
  rw [hcur, h1, h2, h4]

lemma convertStep_blank (s : ConvState) (u : ConversionUnit)
    (hrule : currentConversionSet s = some u)
    (h : jsTrim s.inputValue = "" ∨ jsTrim s.inputValue = "-" ∨
      parseJS (jsTrim s.inputValue) = .nan) :
    convertStep s = some ("", false) := by
  simp only [convertStep, hrule]
  by_cases htr : jsTrim s.inputValue = "" ∨ jsTrim s.inputValue = "-"
  · rw [if_pos htr]
  · rw [if_neg htr]
    rcases h with h | h | h
    · exact absurd (Or.inl h) htr
    · exact absurd (Or.inr h) htr
    · rw [h]

lemma convertStep_err (s : ConvState) (u : ConversionUnit)
    (hrule : currentConversionSet s = some u)
    (htr : ¬(jsTrim s.inputValue = "" ∨ jsTrim s.inputValue = "-"))
    (h : parseJS (jsTrim s.inputValue) = .inf ∨ parseJS (jsTrim s.inputValue) = .neginf) :
    convertStep s = some ("Error", false) := by
  simp only [convertStep, hrule]
  rw [if_neg htr]
  rcases h with h | h <;> rw [h]

lemma convertStep_fin (s : ConvState) (u : ConversionUnit) (q : ℚ)
    (hrule : currentConversionSet s = some u)
    (htr : ¬(jsTrim s.inputValue = "" ∨ jsTrim s.inputValue = "-"))
    (hp : parseJS (jsTrim s.inputValue) = .fin q) :
    convertStep s =
      (match rawConverted s.activeCategoryId s.isSwapped u (.fin q) with
       | none => some ("Factor must be non-zero", false)
       | some v => some (formatJ v, true)) := by
  simp only [convertStep, hrule]
  rw [if_neg htr, hp]

lemma convert_fin_success (now : ℕ) (s : ConvState) (u : ConversionUnit) (q : ℚ) (v : JNum)
    (hrule : currentConversionSet s = some u)
    (htr : ¬(jsTrim s.inputValue = "" ∨ jsTrim s.inputValue = "-"))
    (hp : parseJS (jsTrim s.inputValue) = .fin q)
    (hv : rawConverted s.activeCategoryId s.isSwapped u (.fin q) = some v) :
    convert now s =
      { s with resultValue := formatJ v,
               history := (mkHistoryItem now s (jsTrim s.inputValue) (formatJ v) ::
                 s.history).take 10 } := by
  apply convert_eq_app
  rw [convertStep_fin s u q hrule htr hp, hv]

lemma convert_zero_factor (now : ℕ) (s : ConvState) (u : ConversionUnit) (q : ℚ)
    (hrule : currentConversionSet s = some u)
    (htr : ¬(jsTrim s.inputValue = "" ∨ jsTrim s.inputValue = "-"))
    (hp : parseJS (jsTrim s.inputValue) = .fin q)
    (hv : rawConverted s.activeCategoryId s.isSwapped u (.fin q) = none) :
    convert now s = { s with resultValue := "Factor must be non-zero" } := by
  apply convert_eq_noapp
  rw [convertStep_fin s u q hrule htr hp, hv]

lemma rawConverted_linear (catId : String) (sw : Bool) (a b : String) (f num : JNum)
    (hnz : ¬(catId = "custom" ∧ f = .fin 0)) :
    rawConverted catId sw (.linear a b f) num =
      some (if sw then jmul num (jdiv (.fin 1) f) else jmul num f) := by
  simp only [rawConverted]
  rw [if_neg hnz]

lemma chk_eq_fin (q : ℚ) (h : |q| < OVF) : chk q = .fin q := by
  unfold chk; rw [if_pos h]

lemma jmul_fin (a b : ℚ) : jmul (.fin a) (.fin b) = chk (a * b) := rfl

lemma jdiv_one_fin (f : ℚ) (hf : f ≠ 0) : jdiv (.fin 1) (.fin f) = chk (1 / f) := by
  simp only [jdiv]
  rw [if_neg hf]

lemma linear_value (f x : ℚ) (hf : f ≠ 0) (sw : Bool)
    (hns : sw = false → |x * f| < OVF)
    (hs : sw = true → |1 / f| < OVF ∧ |x / f| < OVF) :
    (if sw then jmul (.fin x) (jdiv (.fin 1) (.fin f)) else jmul (.fin x) (.fin f)) =
      .fin (if sw then x / f else x * f) := by
  cases sw with
  | false =>
      rw [if_neg (by decide), if_neg (by decide), jmul_fin, chk_eq_fin _ (hns rfl)]
  | true =>
      obtain ⟨h1, h2⟩ := hs rfl
      rw [if_pos rfl, if_pos rfl, jdiv_one_fin f hf, chk_eq_fin _ h1, jmul_fin,
        mul_one_div, chk_eq_fin _ h2]

lemma convertStep_none (s : ConvState) (h : currentConversionSet s = none) :
    convertStep s = none := by
  simp only [convertStep, h]

lemma currentConversionSet_congr (s₁ s₂ : ConvState)
    (h2 : s₁.activeCategoryId = s₂.activeCategoryId)
    (h3 : s₁.activeConversionIndex = s₂.activeConversionIndex)
    (h5 : s₁.customFromUnit = s₂.customFromUnit)
    (h6 : s₁.customToUnit = s₂.customToUnit)
    (h7 : s₁.customFactor = s₂.customFactor) :
    currentConversionSet s₁ = currentConversionSet s₂ := by
  unfold currentConversionSet activeCategory customParsedFactor
  rw [h2, h3, h5, h6, h7]

lemma swap_eq (s : ConvState)
    (h1 : s.activeCategoryId ≠ "temperature")
    (h2 : ¬(s.activeCategoryId = "custom" ∧ parseJS s.customFactor = .fin 0)) :
    swapConversion s =
      { s with isSwapped := !s.isSwapped, resultValue := "", inputValue := s.resultValue } := by
  unfold swapConversion
  rw [if_neg h1, if_neg h2]

/-- Structural shape of the formatted text of a small finite value: an
optional minus sign, the integer digits, and an optional nonempty stripped
fraction of at most eight digits whose last digit is not zero. -/
lemma formatJ_small_shape (v : ℚ) (hb : |v| < 1000) :
    ∃ (neg : Bool) (ip : ℕ) (fr : List Char),
      (∀ c ∈ fr, jsDigit c = true) ∧ fr.length ≤ 8 ∧ fr.getLast? ≠ some '0' ∧
      (formatJ (.fin v)).data = (if neg then ['-'] else []) ++ natDigits ip ++
        (if fr.isEmpty then [] else '.' :: fr) := by
  by_cases hden : v.den = 1
  · rw [formatJ_int_small v hden hb]
    by_cases hn : v.num < 0
    · refine ⟨true, v.num.natAbs, [], by simp, by simp, by simp, ?_⟩
      simp only [String.data, List.isEmpty_nil, if_pos rfl, if_true, List.append_nil]
      unfold intChars
      rw [if_pos hn]
    · refine ⟨false, v.num.natAbs, [], by simp, by simp, by simp, ?_⟩
      simp only [String.data, List.isEmpty_nil, if_true]
      rw [if_neg (by decide), List.append_nil]
      unfold intChars
      rw [if_neg hn, List.nil_append]
  · rw [formatJ_frac_small v hden hb]
    set m : ℕ := (⌊|v| * 10 ^ 8 + 1 / 2⌋).toNat with hm
    set F := natDigitsPad 8 (m % 10 ^ 8) with hF
    have htf : toFixed8 v =
        ⟨((if v < 0 then ['-'] else []) ++ natDigits (m / 10 ^ 8)) ++ '.' :: F⟩ := by
      unfold toFixed8
      rw [← hm]
      try simp [List.append_assoc]
    have hFd : ∀ c ∈ F, jsDigit c = true := by
      rw [hF]; exact (natDigitsPad_spec 8 (m % 10 ^ 8)).2.2
    cases hstrip : F.reverse.dropWhile (· = '0') with
    | nil =>
        rw [htf, stripFixed_all_zeros _ _ hstrip]
        by_cases hn : v < 0
        · refine ⟨true, m / 10 ^ 8, [], by simp, by simp, by simp, ?_⟩
          simp only [String.data, List.isEmpty_nil, if_true, List.append_nil]
          rw [if_pos hn]
        · refine ⟨false, m / 10 ^ 8, [], by simp, by simp, by simp, ?_⟩
          simp only [String.data, List.isEmpty_nil, if_true, List.append_nil]
          rw [if_neg hn]
          rw [if_neg (by decide), List.nil_append]
    | cons c t =>
        have hcd : jsDigit c = true := by
          apply hFd
          have hmem : c ∈ F.reverse.dropWhile (· = '0') := by
            rw [hstrip]; exact List.mem_cons_self _ _
          exact List.mem_reverse.mp ((List.dropWhile_sublist _).mem hmem)
        have hcne : c ≠ '.' := by
          intro h'; subst h'; exact absurd hcd (by decide)
        rw [htf, stripFixed_some _ _ c t hstrip hcne]
        have hfrd : ∀ x ∈ (c :: t).reverse, jsDigit x = true := by
          intro x hx
          apply hFd
          have hmem : x ∈ F.reverse.dropWhile (· = '0') := by
            rw [hstrip]; exact List.mem_reverse.mp hx
          exact List.mem_reverse.mp ((List.dropWhile_sublist _).mem hmem)
        have hlen : ((c :: t).reverse).length ≤ 8 := by
          have h1 : (F.reverse.dropWhile (· = '0')).length ≤ F.reverse.length :=
            (List.dropWhile_sublist _).length_le
          rw [hstrip] at h1
          have h2 : F.length = 8 := by rw [hF]; exact (natDigitsPad_spec 8 _).2.1
          simp only [List.length_reverse] at h1 ⊢
          omega
        have hlast : ((c :: t).reverse).getLast? ≠ some '0' := by
          rw [List.getLast?_reverse]
          intro h'
          have hc0 : c = '0' := by
            simpa using h'
          have := head_dropWhile_false F.reverse c t hstrip
          rw [hc0] at this
          simp at this
        by_cases hn : v < 0
        · refine ⟨true, m / 10 ^ 8, (c :: t).reverse, hfrd, hlen, hlast, ?_⟩
          simp only [String.data]
          rw [if_pos hn]
          have : ((c :: t).reverse).isEmpty = false := by simp
          rw [this]
          simp [List.append_assoc]
        · refine ⟨false, m / 10 ^ 8, (c :: t).reverse, hfrd, hlen, hlast, ?_⟩
          simp only [String.data]
          rw [if_neg hn]
          have : ((c :: t).reverse).isEmpty = false := by simp
          rw [this]
          rw [if_neg (by decide)]
          simp [List.append_assoc]

lemma jsDigit_ne_special {c : Char} (h : jsDigit c = true) :
    c ≠ ',' ∧ c ≠ '.' ∧ c ≠ '-' ∧ c ≠ '+' := by
  refine ⟨?_, ?_, ?_, ?_⟩ <;> (intro h'; subst h'; exact absurd h (by decide))

lemma formatJ_small_no_ws (v : ℚ) (hb : |v| < 1000) :
    ∀ c ∈ (formatJ (.fin v)).data, wsChar c = false := by
  obtain ⟨neg, ip, fr, hfr, _, _, hshape⟩ := formatJ_small_shape v hb
  intro c hc
  rw [hshape] at hc
  simp only [List.append_assoc, List.mem_append] at hc
  rcases hc with h | h | h
  · cases neg
    · simp at h
    · simp at h
      subst h
      decide
  · exact jsDigit_not_ws (natDigits_digits ip c h)
  · split at h
    · simp at h
    · rcases List.mem_cons.mp h with h2 | h2
      · subst h2; decide
      · exact jsDigit_not_ws (hfr c h2)

lemma formatJ_small_ne (v : ℚ) (hb : |v| < 1000) :
    ¬(formatJ (.fin v) = "" ∨ formatJ (.fin v) = "-") := by
  obtain ⟨neg, ip, fr, _, _, _, hshape⟩ := formatJ_small_shape v hb
  obtain ⟨c, t, hct, hcd⟩ := natDigits_cons ip
  have hcne : c ≠ '-' := (jsDigit_ne_special hcd).2.2.1
  intro h
  rcases h with h | h
  · have hd : (formatJ (.fin v)).data = [] := by rw [h]
    rw [hshape, hct] at hd
    cases neg <;> simp at hd
  · have hd : (formatJ (.fin v)).data = ['-'] := by rw [h]
    rw [hshape, hct] at hd
    cases neg
    · simp [hcne] at hd
    · simp at hd

lemma jsTrim_formatJ_small (v : ℚ) (hb : |v| < 1000) :
    jsTrim (formatJ (.fin v)) = formatJ (.fin v) := by
  have h := jsTrim_eq_self (formatJ (.fin v)).data (formatJ_small_no_ws v hb)
  simpa using h

/-! ### No decimal point in integer renderings -/

lemma dot_notin_intChars (n : ℤ) : '.' ∉ intChars n := by
  intro hc
  unfold intChars at hc
  rcases List.mem_append.mp hc with h | h
  · split at h <;> simp at h
  · exact absurd (natDigits_digits n.natAbs '.' h) (by decide)

lemma mem_commaRevAux : ∀ (fuel : ℕ) (l : List Char) (c : Char),
    c ∈ commaRevAux fuel l → c ∈ l ∨ c = ',' := by
  intro fuel
  induction fuel with
  | zero => intro l c hc; exact Or.inl hc
  | succ f ih =>
      intro l c hc
      rw [commaRevAux] at hc
      split at hc
      · exact Or.inl hc
      · rcases List.mem_append.mp hc with h | h
        · exact Or.inl ((List.take_sublist _ _).mem h)
        · rcases List.mem_cons.mp h with h | h
          · exact Or.inr h
          · rcases ih _ c h with h2 | h2
            · exact Or.inl ((List.drop_sublist _ _).mem h2)
            · exact Or.inr h2

lemma dot_notin_intLocale (n : ℤ) : '.' ∉ (intLocale n).data := by
  unfold intLocale
  simp only [String.data]
  intro hc
  rcases List.mem_append.mp hc with h | h
  · split at h <;> simp at h
  · have h2 := List.mem_reverse.mp h
    rcases mem_commaRevAux _ _ _ h2 with h3 | h3
    · exact absurd (natDigits_digits n.natAbs '.' (List.mem_reverse.mp h3)) (by decide)
    · exact absurd h3 (by decide)

lemma splitDot_no_dot : ∀ l : List Char, '.' ∉ l → splitDot l = [l] := by
  intro l
  induction l with
  | nil => intro _; rfl
  | cons c t ih =>
      intro h
      have hc : ¬(c = '.') := fun hc => h (by rw [hc]; exact List.mem_cons_self _ _)
      simp [splitDot, ih (fun hm => h (List.mem_cons_of_mem _ hm)), hc]

lemma intercalate_single (a : List Char) : List.intercalate ['.'] [a] = a := by
  simp [List.intercalate]

lemma intChars_filter_comma (n : ℤ) : (intChars n).filter (· ≠ ',') = intChars n := by
  apply List.filter_eq_self.mpr
  intro c hc
  unfold intChars at hc
  rcases List.mem_append.mp hc with h | h
  · split at h <;> simp at h
    subst h
    decide
  · simpa using (jsDigit_ne_special (natDigits_digits n.natAbs c h)).1

lemma dot_notin_jLocale_chk (x : ℚ) (hden : x.den = 1) : '.' ∉ (jLocale (chk x)).data := by
  unfold chk
  split
  · simp only [jLocale]
    rw [if_pos hden]
    exact dot_notin_intLocale x.num
  · split <;> simp [jLocale]

lemma groupStep_no_dot (s : String) (h : '.' ∉ s.data) :
    (groupStep s).data = (jLocale (parseJS ⟨s.data.filter (· ≠ ',')⟩)).data := by
  unfold groupStep
  rw [splitDot_no_dot _ h]
  simp [intercalate_single]

lemma dot_notin_formatJ_int (q : ℚ) (hden : q.den = 1) : '.' ∉ (formatJ (.fin q)).data := by
  have h1 : jFracNonzero (.fin q) = false := by simp [jFracNonzero, hden]
  by_cases hb : jAbs1000 (.fin q) = true
  · have hfj : formatJ (.fin q) = groupStep (jToString (.fin q)) := by
      simp only [formatJ, h1, hb, Bool.false_eq_true, if_false, if_true]
    rw [hfj]
    have hnd : '.' ∉ (jToString (.fin q)).data := dot_notin_intChars q.num
    intro hc
    rw [groupStep_no_dot _ hnd] at hc
    rw [show ((jToString (.fin q)).data.filter (· ≠ ',')) = intChars q.num from
      intChars_filter_comma q.num] at hc
    by_cases hn : q.num < 0
    · have hi : intChars q.num =
          (if (true : Bool) = true then ['-'] else []) ++ natDigits q.num.natAbs := by
        unfold intChars; rw [if_pos hn]; rfl
      rw [hi, parseJS_signInt true _] at hc
      have hd1 : ((if (true : Bool) = true then (-1 : ℚ) else 1) * (q.num.natAbs : ℚ)).den = 1 := by
        rw [if_pos rfl, neg_one_mul]
        simp [Rat.neg_den]
      exact dot_notin_jLocale_chk _ hd1 hc
    · have hi : intChars q.num =
          (if (false : Bool) = true then ['-'] else []) ++ natDigits q.num.natAbs := by
        unfold intChars; rw [if_neg hn, if_neg (by decide)]
      rw [hi, parseJS_signInt false _] at hc
      have hd1 : ((if (false : Bool) = true then (-1 : ℚ) else 1) * (q.num.natAbs : ℚ)).den = 1 := by
        rw [if_neg (by decide), one_mul]
        simp
      exact dot_notin_jLocale_chk _ hd1 hc
  · have hfj : formatJ (.fin q) = jToString (.fin q) := by
      simp only [formatJ, h1, Bool.false_eq_true, if_false]
      rw [if_neg hb]
    rw [hfj]
    exact dot_notin_intChars q.num

/-! ### Claim theorems -/

/-- C1: for every resolved linear rule with factor `f ≠ 0` (catalog or the
synthesized custom rule) and every raw input whose trimmed text parses to a
finite `x`, `convert` produces the formatted value `x * f` when not swapped
and `x / f` when swapped (within the double range: the swapped path
computes `x * (1 / f)`, which over exact rationals equals `x / f`). -/
theorem claim_C1 (now : ℕ) (s : ConvState) (a b : String) (f x : ℚ)
    (hrule : currentConversionSet s = some (.linear a b (.fin f)))
    (hf : f ≠ 0)
    (htr : ¬(jsTrim s.inputValue = "" ∨ jsTrim s.inputValue = "-"))
    (hp : parseJS (jsTrim s.inputValue) = .fin x)
    (hns : s.isSwapped = false → |x * f| < OVF)
    (hs : s.isSwapped = true → |1 / f| < OVF ∧ |x / f| < OVF) :
    (convert now s).resultValue = formatJ (.fin (if s.isSwapped then x / f else x * f)) := by
  have hnz : ¬(s.activeCategoryId = "custom" ∧ (JNum.fin f) = .fin 0) := by
    rintro ⟨_, hf0⟩
    exact hf (by injection hf0)
  have hraw := rawConverted_linear s.activeCategoryId s.isSwapped a b (.fin f) (.fin x) hnz
  rw [linear_value f x hf s.isSwapped hns hs] at hraw
  rw [convert_fin_success now s _ x _ hrule htr hp hraw]

/-- C1 witness: converting "5" with the Meters-to-Feet rule. -/
theorem claim_C1_witness :
    (convert 0 { baseState with inputValue := "5" }).resultValue =
      formatJ (.fin ((5 : ℚ) * 3.28084)) := by
  have h := claim_C1 0 { baseState with inputValue := "5" } "Meters" "Feet" 3.28084 5
    rfl (by norm_num) (by with_unfolding_all decide) (by with_unfolding_all decide)
    (fun _ => by rw [abs_of_pos (by norm_num)]; norm_num [OVF])
    (fun hsw => by exact absurd hsw (by with_unfolding_all decide))
  exact h

/-- C4: whenever the resolved rule is non-linear, the swap operation leaves
the whole state unchanged (and, being a total function of the model, cannot
crash); and in the shipped catalog the non-linear rules are exactly those of
the temperature category. -/
theorem claim_C4 :
    (∀ (s : ConvState) (u : ConversionUnit),
      currentConversionSet s = some u → u.isNonLinear = true → swapConversion s = s) ∧
    (∀ c ∈ COMPLEX_CONVERSION_DATA, ∀ u ∈ c.conversions,
      (u.isNonLinear = true ↔ c.id = "temperature")) := by
  constructor
  · intro s u h hnl
    have htemp := nonlinear_imp_temp s u h hnl
    unfold swapConversion
    rw [if_pos htemp]
  · exact catalog_nonlinear_iff

/-- C4 witness: swap on the temperature category with a populated state. -/
theorem claim_C4_witness :
    swapConversion
        { baseState with activeCategoryId := "temperature", resultValue := "212" } =
      { baseState with activeCategoryId := "temperature", resultValue := "212" } :=
  claim_C4.1 _ (.nonlinear "Celsius" "Fahrenheit" celsiusToFahrenheit) rfl rfl

/-- C5: an input whose trimmed text is empty, a bare minus sign, or
unparsable leaves the history untouched, and (whenever a rule resolves)
sets the result to the empty display string — the entire state change is
the blanked result. -/
theorem claim_C5 (now : ℕ) (s : ConvState)
    (h : jsTrim s.inputValue = "" ∨ jsTrim s.inputValue = "-" ∨
      parseJS (jsTrim s.inputValue) = .nan) :
    (convert now s).history = s.history ∧
    (∀ u, currentConversionSet s = some u → convert now s = { s with resultValue := "" }) := by
  constructor
  · cases hcs : currentConversionSet s with
    | none => rw [convert_eq_none now s (convertStep_none s hcs)]
    | some u => rw [convert_eq_noapp now s "" (convertStep_blank s u hcs h)]
  · intro u hu
    exact convert_eq_noapp now s "" (convertStep_blank s u hu h)

/-- C5 witness: the input "abc" yields a blank result and no history. -/
theorem claim_C5_witness :
    (convert 0 { baseState with inputValue := "abc" }).history = [] ∧
    convert 0 { baseState with inputValue := "abc" } =
      { baseState with inputValue := "abc", resultValue := "" } := by
  have h := claim_C5 0 { baseState with inputValue := "abc" }
    (Or.inr (Or.inr (by with_unfolding_all decide)))
  exact ⟨h.1, h.2 _ rfl⟩

/-- C6: an input that parses to an infinite value sets the result to the
literal "Error" and changes nothing else — in particular no history entry
is appended. -/
theorem claim_C6 (now : ℕ) (s : ConvState) (u : ConversionUnit)
    (hrule : currentConversionSet s = some u)
    (htr : ¬(jsTrim s.inputValue = "" ∨ jsTrim s.inputValue = "-"))
    (h : parseJS (jsTrim s.inputValue) = .inf ∨ parseJS (jsTrim s.inputValue) = .neginf) :
    convert now s = { s with resultValue := "Error" } ∧
    (convert now s).history = s.history := by
  have heq := convert_eq_noapp now s "Error" (convertStep_err s u hrule htr h)
  exact ⟨heq, by rw [heq]⟩

/-- C6 witness: the overflowing 310-digit literal displays "Error" and
appends nothing. -/
theorem claim_C6_witness :
    convert 0 { baseState with inputValue := hugeLit } =
      { baseState with inputValue := hugeLit, resultValue := "Error" } ∧
    (convert 0 { baseState with inputValue := hugeLit }).history = [] := by
  have h := claim_C6 0 { baseState with inputValue := hugeLit }
    (.linear "Meters" "Feet" (.fin 3.28084)) rfl (by with_unfolding_all decide) (Or.inl (by with_unfolding_all decide))
  exact ⟨h.1, h.2⟩

/-- C10: finiteness is checked only on the parsed input; when the computed
conversion value is non-finite, `convert` still treats the run as a success:
the special value is formatted (to "∞", "-∞" or "NaN") and displayed, a
history entry is appended, and the "Error" display is not produced. -/
theorem claim_C10 (now : ℕ) (s : ConvState) (u : ConversionUnit) (q : ℚ) (v : JNum)
    (hrule : currentConversionSet s = some u)
    (htr : ¬(jsTrim s.inputValue = "" ∨ jsTrim s.inputValue = "-"))
    (hp : parseJS (jsTrim s.inputValue) = .fin q)
    (hv : rawConverted s.activeCategoryId s.isSwapped u (.fin q) = some v)
    (hnf : v.isFinite = false) :
    (convert now s).resultValue = formatJ v ∧
    (convert now s).history =
      (mkHistoryItem now s (jsTrim s.inputValue) (formatJ v) :: s.history).take 10 ∧
    (convert now s).resultValue ≠ "Error" := by
  have h := convert_fin_success now s u q v hrule htr hp hv
  refine ⟨by rw [h], by rw [h], ?_⟩
  rw [h]
  show formatJ v ≠ "Error"
  cases v with
  | fin q' => exact absurd hnf (by simp [JNum.isFinite])
  | inf => with_unfolding_all decide
  | neginf => with_unfolding_all decide
  | nan => with_unfolding_all decide

/-- C10 witness: a finite parsed input whose converted value is the
infinity (here via an infinite synthesized factor, `parseFloat` of an
overflowing factor text) is displayed as the formatted infinity, as a
success. -/
theorem claim_C10_witness :
    (convert 0 { baseState with activeCategoryId := "custom", customFactor := "Infinity", inputValue := "5" }).resultValue = formatJ JNum.inf :=
  (claim_C10 0
    { baseState with activeCategoryId := "custom", customFactor := "Infinity", inputValue := "5" }
    (.linear "Unit A" "Unit B" .inf) 5 .inf
    rfl
    (by with_unfolding_all decide)
    (by with_unfolding_all decide)
    (by with_unfolding_all decide)
    rfl).1

/-- C2: the history list never exceeds ten entries; every convert either
leaves it unchanged or prepends one entry and truncates to ten; clearing
empties it wholesale; and after eleven successful conversions the ten most
recent remain in most-recent-first order with the first conversion absent. -/
theorem claim_C2 :
    (∀ (now : ℕ) (s : ConvState), s.history.length ≤ 10 →
      (convert now s).history.length ≤ 10) ∧
    (∀ (now : ℕ) (s : ConvState), (convert now s).history = s.history ∨
      ∃ e, (convert now s).history = (e :: s.history).take 10) ∧
    (∀ s : ConvState, (clearHistory s).history = []) ∧
    (elevenRuns.history.map (fun e => e.inputValue) =
      ["11", "10", "9", "8", "7", "6", "5", "4", "3", "2"] ∧
      elevenRuns.history.length = 10 ∧
      elevenRuns.history.all (fun e => e.inputValue ≠ "1") = true) := by
  refine ⟨?_, ?_, ?_, ?_⟩
  · intro now s h
    cases hcs : convertStep s with
    | none => rw [convert_eq_none now s hcs]; exact h
    | some p =>
        rcases p with ⟨res, app⟩
        cases app
        · rw [convert_eq_noapp now s res hcs]; exact h
        · rw [convert_eq_app now s res hcs]
          simp only [List.length_take]
          omega
  · intro now s
    cases hcs : convertStep s with
    | none => left; rw [convert_eq_none now s hcs]
    | some p =>
        rcases p with ⟨res, app⟩
        cases app
        · left; rw [convert_eq_noapp now s res hcs]
        · right
          exact ⟨mkHistoryItem now s (jsTrim s.inputValue) res,
            by rw [convert_eq_app now s res hcs]⟩
  · intro s; rfl
  · refine ⟨?_, ?_, ?_⟩ <;> with_unfolding_all decide

/-- C2 witness: bounds instantiated on the initial state. -/
theorem claim_C2_witness :
    (convert 0 { baseState with inputValue := "5" }).history.length ≤ 10 :=
  claim_C2.1 0 { baseState with inputValue := "5" } (by decide)

/-- C3 counterexample: with the unparsable custom factor text "abc" (which
the engine's rule synthesis parses to factor 0), the swap operation is NOT
rejected: `parseFloat("abc")` is NaN, `NaN === 0` is false, so swap flips
the direction and takes the stale result as the new input. -/
theorem claim_C3_counterexample :
    customParsedFactor { baseState with activeCategoryId := "custom", customFactor := "abc", resultValue := "7" } = .fin 0 ∧
    ({ baseState with activeCategoryId := "custom", customFactor := "abc", resultValue := "7" } : ConvState).isSwapped = false ∧
    (swapConversion { baseState with activeCategoryId := "custom", customFactor := "abc", resultValue := "7" }).isSwapped = true ∧
    (swapConversion { baseState with activeCategoryId := "custom", customFactor := "abc", resultValue := "7" }).inputValue = "7" := by
  refine ⟨?_, ?_, ?_, ?_⟩ <;> with_unfolding_all decide

/-- C3 amended: in custom mode, when the synthesized factor (NaN coerced to
0) is 0 and the input parses to a finite number, `convert` yields exactly
the "Factor must be non-zero" display and nothing else changes; swap is
rejected precisely when the factor text literally parses to the number 0,
while an unparsable factor text (`parseFloat` NaN, e.g. empty or
non-numeric) lets the swap proceed. -/
theorem claim_C3_amended :
    (∀ (now : ℕ) (s : ConvState) (x : ℚ),
      s.activeCategoryId = "custom" →
      customParsedFactor s = .fin 0 →
      ¬(jsTrim s.inputValue = "" ∨ jsTrim s.inputValue = "-") →
      parseJS (jsTrim s.inputValue) = .fin x →
      convert now s = { s with resultValue := "Factor must be non-zero" }) ∧
    (∀ s : ConvState, s.activeCategoryId = "custom" → parseJS s.customFactor = .fin 0 →
      swapConversion s = s) ∧
    (∀ s : ConvState, s.activeCategoryId = "custom" → parseJS s.customFactor = .nan →
      swapConversion s =
        { s with isSwapped := !s.isSwapped, resultValue := "", inputValue := s.resultValue }) := by
  refine ⟨?_, ?_, ?_⟩
  · intro now s x hid hpf htr hp
    have hrule : currentConversionSet s = some (.linear (orElseStr s.customFromUnit "Unit A")
        (orElseStr s.customToUnit "Unit B") (customParsedFactor s)) := by
      unfold currentConversionSet
      rw [if_pos hid]
    rw [hpf] at hrule
    have hraw : rawConverted s.activeCategoryId s.isSwapped
        (.linear (orElseStr s.customFromUnit "Unit A") (orElseStr s.customToUnit "Unit B")
          (.fin 0)) (.fin x) = none := by
      simp [rawConverted, hid]
    exact convert_zero_factor now s _ x hrule htr hp hraw
  · intro s hid hpf
    unfold swapConversion
    rw [if_neg (by rw [hid]; decide), if_pos ⟨hid, hpf⟩]
  · intro s hid hpf
    unfold swapConversion
    rw [if_neg (by rw [hid]; decide)]
    rw [if_neg (by rintro ⟨_, h⟩; rw [hpf] at h; simp at h)]

/-- C3 witness: factor text "0" makes convert report the zero-factor error
and makes swap a no-op; factor text "abc" lets swap proceed. -/
theorem claim_C3_witness :
    convert 0 { baseState with activeCategoryId := "custom", customFactor := "0", inputValue := "5" } =
      { baseState with activeCategoryId := "custom", customFactor := "0", inputValue := "5", resultValue := "Factor must be non-zero" } ∧
    swapConversion { baseState with activeCategoryId := "custom", customFactor := "0" } =
      { baseState with activeCategoryId := "custom", customFactor := "0" } ∧
    swapConversion { baseState with activeCategoryId := "custom", customFactor := "abc", resultValue := "9" } =
      { baseState with activeCategoryId := "custom", customFactor := "abc", resultValue := "", inputValue := "9", isSwapped := true } := by
  refine ⟨?_, ?_, ?_⟩
  · exact claim_C3_amended.1 0 _ 5 rfl (by with_unfolding_all decide)
      (by with_unfolding_all decide) (by with_unfolding_all decide)
  · exact claim_C3_amended.2.1 _ rfl (by with_unfolding_all decide)
  · exact claim_C3_amended.2.2 _ rfl (by with_unfolding_all decide)

/-- C7: an integral converted value renders with no decimal point (also
when thousands-grouped); a small value renders as sign, integer digits and
at most eight stripped fraction digits never ending in zero; and the three
specified renderings hold: 5 Meters to Feet gives "16.4042", 1000 Meters to
Feet gives "3,280.84" with the integer portion comma-grouped and the
fraction untouched, and an exact integer result renders as "10". -/
theorem claim_C7 :
    (∀ q : ℚ, q.den = 1 → '.' ∉ (formatJ (.fin q)).data) ∧
    (∀ v : ℚ, |v| < 1000 →
      ∃ (neg : Bool) (ip : ℕ) (fr : List Char),
        (∀ c ∈ fr, jsDigit c = true) ∧ fr.length ≤ 8 ∧ fr.getLast? ≠ some '0' ∧
        (formatJ (.fin v)).data = (if neg then ['-'] else []) ++ natDigits ip ++
          (if fr.isEmpty then [] else '.' :: fr)) ∧
    (convert 0 { baseState with inputValue := "5" }).resultValue = "16.4042" ∧
    (convert 0 { baseState with inputValue := "1000" }).resultValue = "3,280.84" ∧
    (convert 0 { baseState with activeCategoryId := "custom", customFactor := "2", inputValue := "5" }).resultValue = "10" := by
  refine ⟨dot_notin_formatJ_int, formatJ_small_shape, ?_, ?_, ?_⟩ <;>
    with_unfolding_all decide

/-- C7 witness: the universally quantified conjuncts instantiated at the
integer 7 and the non-integral value one half. -/
theorem claim_C7_witness :
    '.' ∉ (formatJ (.fin (7 : ℚ))).data ∧
    (∃ (neg : Bool) (ip : ℕ) (fr : List Char),
      (∀ c ∈ fr, jsDigit c = true) ∧ fr.length ≤ 8 ∧ fr.getLast? ≠ some '0' ∧
      (formatJ (.fin ((1 : ℚ) / 2))).data = (if neg then ['-'] else []) ++ natDigits ip ++
        (if fr.isEmpty then [] else '.' :: fr)) :=
  ⟨claim_C7.1 7 (by norm_num), claim_C7.2.1 ((1 : ℚ) / 2)
    (by rw [abs_of_pos (by norm_num)]; norm_num)⟩

/-- C8 counterexample: running `convert` twice on identical inputs is not
idempotent on the history — the second run appends a duplicate entry. -/
theorem claim_C8_counterexample :
    (convert 0 (convert 0 { baseState with inputValue := "5" })).history ≠
      (convert 0 { baseState with inputValue := "5" }).history := by
  with_unfolding_all decide

/-- C8 amended: a second invocation of `convert` with unchanged inputs
always reproduces the same formatted result; the history is also unchanged
whenever the run does not append (no rule, blank or invalid input) — but a
successful run appends a fresh entry on every invocation, so non-duplication
on re-render is the host's (useEffect) doing, not convert's. -/
theorem claim_C8_amended (n1 n2 : ℕ) (s : ConvState) :
    (convert n2 (convert n1 s)).resultValue = (convert n1 s).resultValue ∧
    ((convertStep s = none ∨ ∃ res, convertStep s = some (res, false)) →
      (convert n2 (convert n1 s)).history = (convert n1 s).history) := by
  obtain ⟨f1, f2, f3, f4, f5, f6, f7⟩ := convert_selection n1 s
  have hstep : convertStep (convert n1 s) = convertStep s :=
    convertStep_congr _ _ f1 f2 f3 f4 f5 f6 f7
  constructor
  · cases hcs : convertStep s with
    | none =>
        rw [convert_eq_none n1 s hcs]
        rw [convert_eq_none n2 s hcs]
    | some p =>
        rcases p with ⟨res, app⟩
        have hstep' : convertStep (convert n1 s) = some (res, app) := by rw [hstep, hcs]
        cases app
        · rw [convert_eq_noapp n2 _ res hstep', convert_eq_noapp n1 s res hcs]
        · rw [convert_eq_app n2 _ res hstep', convert_eq_app n1 s res hcs]
  · intro h
    rcases h with h | ⟨res, h⟩
    · rw [convert_eq_none n1 s h, convert_eq_none n2 s h]
    · have hstep' : convertStep (convert n1 s) = some (res, false) := by rw [hstep, h]
      rw [convert_eq_noapp n2 _ res hstep', convert_eq_noapp n1 s res h]

/-- C8 witness: the amended statement instantiated on an unparsable input,
where the second run changes nothing at all. -/
theorem claim_C8_witness :
    (convert 1 (convert 0 { baseState with inputValue := "abc" })).resultValue =
      (convert 0 { baseState with inputValue := "abc" }).resultValue ∧
    (convert 1 (convert 0 { baseState with inputValue := "abc" })).history =
      (convert 0 { baseState with inputValue := "abc" }).history :=
  ⟨(claim_C8_amended 0 1 _).1,
   (claim_C8_amended 0 1 _).2 (Or.inr ⟨"", by with_unfolding_all decide⟩)⟩

/-- C9 counterexample: converting 1000 Meters to Feet formats as
"3,280.84"; swap feeds that text back into `parseFloat`, which stops at the
comma and reads 3, so the round-trip lands nowhere near 1000. -/
theorem claim_C9_counterexample :
    (swapConversion (convert 0 { baseState with inputValue := "1000" })).inputValue =
      "3,280.84" ∧
    parseJS (jsTrim (swapConversion (convert 0 { baseState with inputValue := "1000" })).inputValue) =
      .fin 3 ∧
    (convert 1 (swapConversion (convert 0 { baseState with inputValue := "1000" }))).resultValue =
      formatJ (.fin (3 / (3.28084 : ℚ))) ∧
    ¬(|(3 : ℚ) / 3.28084 - 1000| ≤ |(1000 : ℚ)| / 1000000) := by
  refine ⟨?_, ?_, ?_, ?_⟩ <;> with_unfolding_all decide

/-- C9 amended: for a linear rule with factor `f ≠ 0`, starting unswapped
from a finite input `x`, the swap round-trip (formatted result fed back as
input under the flipped direction) returns a value within relative
tolerance one millionth of `x`, provided the converted value `x * f` has
magnitude in `[1/100, 1000)` — so the formatted text carries no thousands
separators and the eight-decimal rounding error stays inside the
tolerance — and the magnitudes stay clear of double overflow
(`|1 / f| < OVF`, `|x| ≤ 2 ^ 1020`).  For `|x * f| ≥ 1000` the comma-grouped
text is re-parsed only up to the first comma and the round-trip fails. -/
theorem claim_C9_amended (n1 n2 : ℕ) (s : ConvState) (a b : String) (f x : ℚ)
    (hrule : currentConversionSet s = some (.linear a b (.fin f)))
    (hf : f ≠ 0)
    (hsw : s.isSwapped = false)
    (htr : ¬(jsTrim s.inputValue = "" ∨ jsTrim s.inputValue = "-"))
    (hp : parseJS (jsTrim s.inputValue) = .fin x)
    (hlo : 1 / 100 ≤ |x * f|)
    (hhi : |x * f| < 1000)
    (hrec : |1 / f| < OVF)
    (hx : |x| ≤ 2 ^ 1020) :
    (swapConversion (convert n1 s)).inputValue = (convert n1 s).resultValue ∧
    (swapConversion (convert n1 s)).isSwapped = true ∧
    parseJS (jsTrim (swapConversion (convert n1 s)).inputValue) = .fin (rnd8 (x * f)) ∧
    |rnd8 (x * f) / f - x| ≤ |x| / 1000000 ∧
    (convert n2 (swapConversion (convert n1 s))).resultValue =
      formatJ (.fin (rnd8 (x * f) / f)) := by
  have hOVF1000 : (1000 : ℚ) < OVF := by rw [OVF_eq]; norm_num
  have hnz : ¬(s.activeCategoryId = "custom" ∧ (JNum.fin f) = .fin 0) := by
    rintro ⟨_, h0⟩
    exact hf (by injection h0)
  have hraw1 : rawConverted s.activeCategoryId s.isSwapped (.linear a b (.fin f)) (.fin x) =
      some (.fin (x * f)) := by
    rw [rawConverted_linear _ _ _ _ _ _ hnz, hsw]
    rw [show (if (false : Bool) = true then jmul (.fin x) (jdiv (.fin 1) (.fin f))
        else jmul (.fin x) (.fin f)) = jmul (.fin x) (.fin f) from rfl]
    rw [jmul_fin, chk_eq_fin _ (lt_trans hhi hOVF1000)]
  have hs1 : convert n1 s =
      { s with resultValue := formatJ (.fin (x * f)),
               history := (mkHistoryItem n1 s (jsTrim s.inputValue)
                 (formatJ (.fin (x * f))) :: s.history).take 10 } :=
    convert_fin_success n1 s _ x _ hrule htr hp hraw1
  have htempne : s.activeCategoryId ≠ "temperature" := linear_imp_not_temp s a b (.fin f) hrule
  have hguard : ¬(s.activeCategoryId = "custom" ∧ parseJS s.customFactor = .fin 0) := by
    rintro ⟨hid, hpf⟩
    have hcur : currentConversionSet s = some (.linear (orElseStr s.customFromUnit "Unit A")
        (orElseStr s.customToUnit "Unit B") (customParsedFactor s)) := by
      unfold currentConversionSet
      rw [if_pos hid]
    rw [hrule] at hcur
    have hfac := Option.some.inj hcur
    injection hfac with _ _ hfac2
    unfold customParsedFactor at hfac2
    rw [hpf] at hfac2
    simp at hfac2
    exact hf hfac2
  obtain ⟨g1, g2, g3, g4, g5, g6, g7⟩ := convert_selection n1 s
  set s1 := convert n1 s with hs1def
  have hs2 : swapConversion s1 =
      { s1 with isSwapped := !s1.isSwapped, resultValue := "", inputValue := s1.resultValue } := by
    apply swap_eq
    · rw [g2]; exact htempne
    · rw [g2, g7]; exact hguard
  set s2 := swapConversion s1 with hs2def
  have hres1 : s1.resultValue = formatJ (.fin (x * f)) := by rw [hs1]
  have k1 : s2.activeCategoryId = s.activeCategoryId := by rw [hs2]; exact g2
  have k2 : s2.activeConversionIndex = s.activeConversionIndex := by rw [hs2]; exact g3
  have k3 : s2.customFromUnit = s.customFromUnit := by rw [hs2]; exact g5
  have k4 : s2.customToUnit = s.customToUnit := by rw [hs2]; exact g6
  have k5 : s2.customFactor = s.customFactor := by rw [hs2]; exact g7
  have k6 : s2.isSwapped = true := by
    rw [hs2]
    show (!s1.isSwapped) = true
    rw [g4, hsw]
    rfl
  have k7 : s2.inputValue = formatJ (.fin (x * f)) := by
    rw [hs2]
    show s1.resultValue = _
    exact hres1
  have htrim2 : jsTrim (formatJ (.fin (x * f))) = formatJ (.fin (x * f)) :=
    jsTrim_formatJ_small _ hhi
  have hparse2 : parseJS (jsTrim s2.inputValue) = .fin (rnd8 (x * f)) := by
    rw [k7, htrim2]
    exact parse_format_fin _ hhi
  have hxne : x ≠ 0 := by
    intro h0
    rw [h0] at hlo
    norm_num at hlo
  have hfabs : 0 < |f| := abs_pos.mpr hf
  have hxabs : 0 < |x| := abs_pos.mpr hxne
  have hclose := rnd8_close (x * f)
  have hnum : |rnd8 (x * f) / f - x| ≤ |x| / 1000000 := by
    have heq : rnd8 (x * f) / f - x = (rnd8 (x * f) - x * f) / f := by
      rw [sub_div, mul_div_cancel_right₀ _ hf]
    rw [heq, abs_div]
    rw [div_le_div_iff₀ hfabs (by norm_num : (0 : ℚ) < 1000000)]
    have habs_mul : |x| * |f| = |x * f| := (abs_mul x f).symm
    calc |rnd8 (x * f) - x * f| * 1000000 ≤ (1 / (2 * 10 ^ 8)) * 1000000 :=
          mul_le_mul_of_nonneg_right hclose (by norm_num)
      _ = 1 / 200 := by norm_num
      _ ≤ |x * f| := by linarith
      _ = |x| * |f| := habs_mul.symm
  have hy_ovf : |rnd8 (x * f) / f| < OVF := by
    have h1 : |rnd8 (x * f) / f| ≤ |x| / 1000000 + |x| := by
      calc |rnd8 (x * f) / f| = |(rnd8 (x * f) / f - x) + x| := by ring_nf
        _ ≤ |rnd8 (x * f) / f - x| + |x| := abs_add _ _
        _ ≤ |x| / 1000000 + |x| := by linarith
    have h2 : |x| / 1000000 ≤ |x| :=
      div_le_self (abs_nonneg x) (by norm_num)
    calc |rnd8 (x * f) / f| ≤ |x| / 1000000 + |x| := h1
      _ ≤ 2 ^ 1020 + 2 ^ 1020 := by linarith
      _ < OVF := by rw [OVF_eq]; norm_num
  have hrule2 : currentConversionSet s2 = some (.linear a b (.fin f)) := by
    rw [currentConversionSet_congr s2 s k1 k2 k3 k4 k5]
    exact hrule
  have hraw2 : rawConverted s2.activeCategoryId s2.isSwapped (.linear a b (.fin f))
      (.fin (rnd8 (x * f))) = some (.fin (rnd8 (x * f) / f)) := by
    have hnz2 : ¬(s2.activeCategoryId = "custom" ∧ (JNum.fin f) = .fin 0) := by
      rw [k1]; exact hnz
    rw [rawConverted_linear _ _ _ _ _ _ hnz2, k6]
    rw [if_pos rfl]
    rw [jdiv_one_fin f hf, chk_eq_fin _ hrec, jmul_fin, mul_one_div, chk_eq_fin _ hy_ovf]
  have htr2 : ¬(jsTrim s2.inputValue = "" ∨ jsTrim s2.inputValue = "-") := by
    rw [k7, htrim2]
    exact formatJ_small_ne _ hhi
  have hs3 := convert_fin_success n2 s2 _ (rnd8 (x * f)) _ hrule2 htr2 hparse2 hraw2
  refine ⟨?_, k6, hparse2, hnum, ?_⟩
  · rw [hs2]
  · rw [hs3]

/-- C9 witness: 5 Meters to Feet and back through swap recovers 5 within
one part in a million. -/
theorem claim_C9_witness :
    (swapConversion (convert 0 { baseState with inputValue := "5" })).isSwapped = true ∧
    |rnd8 ((5 : ℚ) * 3.28084) / 3.28084 - 5| ≤ |(5 : ℚ)| / 1000000 ∧
    (convert 1 (swapConversion (convert 0 { baseState with inputValue := "5" }))).resultValue =
      formatJ (.fin (rnd8 ((5 : ℚ) * 3.28084) / 3.28084)) := by
  have h := claim_C9_amended 0 1 { baseState with inputValue := "5" } "Meters" "Feet"
    3.28084 5 rfl (by norm_num) rfl
    (by with_unfolding_all decide) (by with_unfolding_all decide)
    (by rw [abs_of_pos (by norm_num)]; norm_num)
    (by rw [abs_of_pos (by norm_num)]; norm_num)
    (by rw [abs_of_pos (by norm_num)]; norm_num [OVF])
    (by rw [abs_of_pos (by norm_num)]; norm_num)
  exact ⟨h.2.1, h.2.2.2.1, h.2.2.2.2⟩
